import Mathlib

/-!
Verification of the schema core of iceberg-cpp (`src/iceberg/schema.{h,cc}`).

This file shallowly embeds the schema data model and the operations of
`src/iceberg/schema.cc`: the `IdToFieldVisitor`, the `NameToIdVisitor`,
the `PruneColumnVisitor`, and the `Schema` member functions
`FindFieldById`, `FindFieldByName`, `project` and `internalSelect` (the
engine behind `select`).

Modelling conventions:
* The type tree (`iceberg/type.h`) is not part of the analysed sources; the
  tree, the field tuple and their structural equality are modelled from the
  specification's data model section (primitive leaves; struct, list and map
  nested nodes; a field is an (id, name, type, optional, doc) tuple).
* C++ `shared_ptr` identity is modelled by structural equality (`typeBeq`).
  Pointer equality implies structural equality, and every branch that the
  code guards by a pointer comparison produces structurally identical
  results under either outcome of the comparison, so all structurally
  observable results are preserved.
* `std::unordered_map` / `std::unordered_set` are modelled as association
  lists and id lists; only lookup and insert-if-absent (`try_emplace`) are
  used by the code, and such lookups are order-independent.
* The mutable lazily-built caches are modelled by explicit state passing
  (`findFieldByIdSt`); a failed index build leaves exactly the entries the
  visitor had inserted before the failure, as the C++ visitor mutates the
  member map in place.  `LazyInitWithCallOnce` only prevents re-entry of
  the init function, and the init function itself returns immediately when
  the cache is non-empty, so invoking the init on each call preserves the
  observable behaviour under either once-flag semantics.
* Machine `int32_t` field ids are modelled as `Int`; the code never
  performs arithmetic on ids, only equality comparisons, so overflow
  cannot be observed.
-/

namespace Iceberg

/-- Error kinds used by the schema core (`InvalidSchema`, `InvalidArgument`).
A not-found lookup is not an error: it is success with an empty optional. -/
inductive ErrorKind : Type where
  | invalidSchema
  | invalidArgument
  deriving DecidableEq

/-- A typed error: kind plus formatted message, as produced by the
`InvalidSchema(...)` / `InvalidArgument(...)` constructors in the code. -/
structure IError : Type where
  kind : ErrorKind
  msg : String
  deriving DecidableEq

/- The type tree and field tuple, modelled from the spec's data model:
primitive leaves and three nested kinds; a list owns one element field and
a map owns a key field and a value field. -/
mutual
inductive IType : Type where
  | primitive (pname : String) : IType
  | structT (fields : FieldList) : IType
  | listT (element : SField) : IType
  | mapT (key : SField) (value : SField) : IType
  deriving DecidableEq

inductive SField : Type where
  | mk (fid : Int) (fname : String) (ftype : IType) (fopt : Bool) (fdoc : String) : SField
  deriving DecidableEq

inductive FieldList : Type where
  | nil : FieldList
  | cons (head : SField) (tail : FieldList) : FieldList
  deriving DecidableEq
end

def SField.fid : SField → Int
  | .mk i _ _ _ _ => i

def SField.fname : SField → String
  | .mk _ n _ _ _ => n

def SField.ftype : SField → IType
  | .mk _ _ t _ _ => t

def SField.fopt : SField → Bool
  | .mk _ _ _ o _ => o

def SField.fdoc : SField → String
  | .mk _ _ _ _ d => d

def FieldList.toList : FieldList → List SField
  | .nil => []
  | .cons f fs => f :: FieldList.toList fs

def FieldList.ofList : List SField → FieldList
  | [] => .nil
  | f :: fs => .cons f (FieldList.ofList fs)

def FieldList.length : FieldList → Nat
  | .nil => 0
  | .cons _ fs => FieldList.length fs + 1

/-- `type_id() == TypeId::kStruct`. -/
def isStructT : IType → Bool
  | .structT _ => true
  | _ => false

/-- `is_primitive()`. -/
def isPrimitiveT : IType → Bool
  | .primitive _ => true
  | _ => false

/-- Structural equality on type trees, standing in for both the
`operator==` of `iceberg/type.h` and (conservatively) for `shared_ptr`
identity, see the module comment. -/
def typeEq (a b : IType) : Bool := decide (a = b)

/-- A `Schema`: the root struct's field list plus the optional schema id
(`Schema : public StructType`, member `schema_id_`). -/
structure Schema : Type where
  fields : FieldList
  schemaId : Option Int
  deriving DecidableEq

/-- `Schema::Equals`: same schema id and same (structural) field sequence. -/
def schemaEquals (a b : Schema) : Bool :=
  decide (a.schemaId = b.schemaId) && decide (a.fields = b.fields)

/-! ## IdToFieldVisitor and FindFieldById -/

/-- Lookup in the id→field map (modelled as an association list). -/
def lookupId : List (Int × SField) → Int → Option SField
  | [], _ => none
  | (k, f) :: rest, i => if k = i then some f else lookupId rest i

def dupIdMsg (d : Int) : String :=
  "Duplicate field id found: " ++ toString d

/- `IdToFieldVisitor`: walk the nested tree, `try_emplace` each field by
id, fail with `InvalidSchema` on a duplicate.  The map is mutated in
place, so entries inserted before a failure remain (returned first
component), exactly as in the C++ code. -/
mutual
def idVisitType (acc : List (Int × SField)) :
    IType → List (Int × SField) × Option IError
  | .primitive _ => (acc, none)
  | .structT fs => idVisitFields acc fs
  | .listT e => idVisitField acc e
  | .mapT k v =>
    match idVisitField acc k with
    | (acc2, none) => idVisitField acc2 v
    | r => r

def idVisitField (acc : List (Int × SField)) :
    SField → List (Int × SField) × Option IError
  | .mk fid fname t fopt fdoc =>
    match lookupId acc fid with
    | some _ => (acc, some ⟨.invalidSchema, dupIdMsg fid⟩)
    | none => idVisitType (acc ++ [(fid, SField.mk fid fname t fopt fdoc)]) t

def idVisitFields (acc : List (Int × SField)) :
    FieldList → List (Int × SField) × Option IError
  | .nil => (acc, none)
  | .cons f fs =>
    match idVisitField acc f with
    | (acc2, none) => idVisitFields acc2 fs
    | r => r
end

/-- `Schema::InitIdToFieldMap`: a no-op when the cache is already
non-empty, otherwise run the visitor over the root fields. -/
def initIdToFieldMap (s : Schema) (cache : List (Int × SField)) :
    List (Int × SField) × Option IError :=
  if cache.isEmpty then idVisitFields cache s.fields
  else (cache, none)

/-- `Schema::FindFieldById` with the mutable cache made explicit: ensure
the id index is built (propagating a build error), then look the id up;
absence is success-with-empty.  The returned second component is the cache
state after the call. -/
def findFieldByIdSt (s : Schema) (fid : Int) (cache : List (Int × SField)) :
    Except IError (Option SField) × List (Int × SField) :=
  match initIdToFieldMap s cache with
  | (m, some e) => (.error e, m)
  | (m, none) => (.ok (lookupId m fid), m)

/-- `FindFieldById` on a freshly constructed schema (empty cache). -/
def findFieldById (s : Schema) (fid : Int) : Except IError (Option SField) :=
  (findFieldByIdSt s fid []).1

/-! ## NameToIdVisitor and FindFieldByName -/

/-- `StringUtils::ToLower` (ASCII-only by design note in the source). -/
def toLowerStr (s : String) : String := String.map Char.toLower s

/-- `NameToIdVisitor::BuildPath` with the default (absent) quoting hook. -/
def buildPath (pre fieldName : String) (caseSensitive : Bool) : String :=
  if caseSensitive then
    if pre = "" then fieldName else pre ++ "." ++ fieldName
  else
    if pre = "" then toLowerStr fieldName
    else pre ++ "." ++ toLowerStr fieldName

/-- Lookup in a path→id map (modelled as an association list). -/
def lookupS : List (String × Int) → String → Option Int
  | [], _ => none
  | (k, v) :: rest, s => if k = s then some v else lookupS rest s

def dupPathMsg (p : String) (prevId currId : Int) : String :=
  "Duplicate path found: " ++ p ++ ", prev id: " ++ toString prevId
    ++ ", curr id: " ++ toString currId

/-- The two maps the `NameToIdVisitor` fills: the canonical path map
(`name_to_id_`, insert collisions are errors) and the short path map
(`short_name_to_id_`, first insertion wins silently). -/
structure NameAcc : Type where
  nameToId : List (String × Int)
  shortToId : List (String × Int)

/-- `try_emplace` into the short map: keep the first binding. -/
def shortTryEmplace (m : List (String × Int)) (p : String) (i : Int) :
    List (String × Int) :=
  match lookupS m p with
  | some _ => m
  | none => m ++ [(p, i)]

/- `NameToIdVisitor`: walks the tree carrying the canonical and short
path prefixes.  Struct children never shorten; a list's element skips the
"element" hop in the short path when the element type is a struct; a map
field named "value" with struct type skips the "value" hop; the key side
never skips. -/
mutual
def nameVisitType (cs : Bool) (acc : NameAcc) (path shortPath : String) :
    IType → NameAcc × Option IError
  | .primitive _ => (acc, none)
  | .structT fs => nameVisitStructFields cs acc path shortPath fs
  | .listT e =>
    match e with
    | .mk fid fname t _ _ =>
      let newPath := buildPath path fname cs
      let newShort :=
        if isStructT t then shortPath else buildPath shortPath fname cs
      match lookupS acc.nameToId newPath with
      | some prevId => (acc, some ⟨.invalidSchema, dupPathMsg newPath prevId fid⟩)
      | none =>
        nameVisitType cs
          ⟨acc.nameToId ++ [(newPath, fid)],
           shortTryEmplace acc.shortToId newShort fid⟩
          newPath newShort t
  | .mapT k v =>
    match nameVisitMapField cs acc path shortPath k with
    | (acc2, none) => nameVisitMapField cs acc2 path shortPath v
    | r => r

def nameVisitMapField (cs : Bool) (acc : NameAcc) (path shortPath : String) :
    SField → NameAcc × Option IError
  | .mk fid fname t _ _ =>
    let newPath := buildPath path fname cs
    let newShort :=
      if fname == "value" && isStructT t then shortPath
      else buildPath shortPath fname cs
    match lookupS acc.nameToId newPath with
    | some prevId => (acc, some ⟨.invalidSchema, dupPathMsg newPath prevId fid⟩)
    | none =>
      nameVisitType cs
        ⟨acc.nameToId ++ [(newPath, fid)],
         shortTryEmplace acc.shortToId newShort fid⟩
        newPath newShort t

def nameVisitStructFields (cs : Bool) (acc : NameAcc) (path shortPath : String) :
    FieldList → NameAcc × Option IError
  | .nil => (acc, none)
  | .cons f fs =>
    match nameVisitStructField cs acc path shortPath f with
    | (acc2, none) => nameVisitStructFields cs acc2 path shortPath fs
    | r => r

def nameVisitStructField (cs : Bool) (acc : NameAcc) (path shortPath : String) :
    SField → NameAcc × Option IError
  | .mk fid fname t _ _ =>
    let newPath := buildPath path fname cs
    let newShort := buildPath shortPath fname cs
    match lookupS acc.nameToId newPath with
    | some prevId => (acc, some ⟨.invalidSchema, dupPathMsg newPath prevId fid⟩)
    | none =>
      nameVisitType cs
        ⟨acc.nameToId ++ [(newPath, fid)],
         shortTryEmplace acc.shortToId newShort fid⟩
        newPath newShort t
end

/-- `NameToIdVisitor::Finish`: merge the short map into the canonical map,
only for paths not already present (canonical paths take precedence). -/
def finishMerge (acc : NameAcc) : List (String × Int) :=
  acc.shortToId.foldl
    (fun m e =>
      match lookupS m e.1 with
      | some _ => m
      | none => m ++ [e])
    acc.nameToId

/-- `Schema::InitNameToIdMap` / `InitLowerCaseNameToIdMap`: run the name
visitor over the root fields with empty prefixes, then `Finish`. -/
def buildNameToId (cs : Bool) (s : Schema) : NameAcc × Option IError :=
  nameVisitStructFields cs ⟨[], []⟩ "" "" s.fields

/-- `Schema::FindFieldByName`: build the appropriate index (propagating
duplicate-path errors), look the (lowercased, when case-insensitive) name
up in the merged canonical+short map, and resolve through
`FindFieldById`. -/
def findFieldByName (s : Schema) (nm : String) (cs : Bool) :
    Except IError (Option SField) :=
  match buildNameToId cs s with
  | (_, some e) => .error e
  | (acc, none) =>
    let merged := finishMerge acc
    let key := if cs then nm else toLowerStr nm
    match lookupS merged key with
    | none => .ok none
    | some fid => findFieldById s fid

/-! ## PruneColumnVisitor, project and internalSelect -/

/-- Stand-in for `Type::ToString()` inside error messages.
Modelled from the spec: the exact rendering lives in `iceberg/type.h`,
which is not part of the analysed sources; no claim inspects these
messages. -/
def typeToStr : IType → String
  | .primitive n => n
  | .structT _ => "struct"
  | .listT _ => "list"
  | .mapT _ _ => "map"

def cannotProjectStructMsg (fid : Int) (fname : String) (t : IType) : String :=
  "Cannot explicitly project List or Map types, " ++ toString fid ++ ":"
    ++ fname ++ " of type " ++ typeToStr t ++ " was selected"

def cannotProjectListMsg (fid : Int) (fname : String) : String :=
  "Cannot explicitly project List or Map types, List element "
    ++ toString fid ++ " of type " ++ fname ++ " was selected"

def cannotProjectMapMsg (fid : Int) (t : IType) : String :=
  "Cannot explicitly project List or Map types, Map value "
    ++ toString fid ++ " of type " ++ typeToStr t ++ " was selected"

/-- `PruneColumnVisitor::ProjectList`: fail when the element result is
null; keep the original list when the narrowed element type is unchanged,
otherwise rebuild the list around the narrowed element type (the rebuild
constructor names the element field "element" with empty doc, modelled
from the spec's naming convention for list children). -/
def projectListStep (e : SField) (child : Option IType) :
    Except IError (Option IType) :=
  match child with
  | none =>
    .error ⟨.invalidArgument, "Cannot project a list when the element result is null"⟩
  | some c =>
    if typeEq e.ftype c then .ok (some (.listT e))
    else .ok (some (.listT (SField.mk e.fid "element" c e.fopt "")))

/-- `PruneColumnVisitor::ProjectMap`: fail when the value result is null;
keep the original key/value when the value type is unchanged, otherwise
rebuild the value field around the narrowed type (the 4-argument
`SchemaField` constructor leaves the doc empty). -/
def projectMapStep (k v : SField) (valRes : Option IType) :
    Except IError (Option IType) :=
  match valRes with
  | none =>
    .error ⟨.invalidArgument, "Attempted to project a map without a defined map value type"⟩
  | some c =>
    if typeEq v.ftype c then .ok (some (.mapT k v))
    else .ok (some (.mapT k (SField.mk v.fid v.fname c v.fopt "")))

/-- The per-field branch of the first loop of
`PruneColumnVisitor::Visit(StructType)`: decide what type (if any) the
field contributes, given the recursively pruned child result. -/
def pruneFieldStep (sel : List Int) (sft : Bool) (fid : Int) (fname : String)
    (t : IType) (child : Option IType) : Except IError (Option IType) :=
  if sel.contains fid then
    if sft then .ok (some t)
    else if isStructT t then
      .ok (some (match child with | some c => c | none => .structT .nil))
    else if isPrimitiveT t then .ok (some t)
    else .error ⟨.invalidArgument, cannotProjectStructMsg fid fname t⟩
  else .ok child

/-- One step of the second loop of `PruneColumnVisitor::Visit(StructType)`:
a field whose selected type is null is dropped; one whose selected type is
(pointer-)identical to its own type is kept as is; otherwise a new field
with the narrowed type is built (id, name, optionality and doc
preserved). -/
def selectedFieldOf (p : SField × Option IType) (r : List SField) : List SField :=
  match p.2 with
  | none => r
  | some t =>
    (if typeEq p.1.ftype t then p.1
     else SField.mk p.1.fid p.1.fname t p.1.fopt p.1.fdoc) :: r

/-- Whether a per-field result leaves `same_types` true. -/
def sameTypeOf (p : SField × Option IType) : Bool :=
  match p.2 with
  | none => true
  | some t => typeEq p.1.ftype t

/-- Assemble a struct result from the per-field `(field, selected type)`
pairs: the second loop of `PruneColumnVisitor::Visit(StructType)`. -/
def assembleStruct (fs : FieldList) (pairs : List (SField × Option IType)) :
    Option IType :=
  let selectedFields := pairs.foldr selectedFieldOf []
  let sameTypes := pairs.all sameTypeOf
  if selectedFields.isEmpty then none
  else if sameTypes && selectedFields.length == fs.length then some (.structT fs)
  else some (.structT (FieldList.ofList selectedFields))

/- `PruneColumnVisitor`, visiting a type and returning the (possibly
null) pruned type; parameterized over the selected id set and
`select_full_types`.  The `Visit(ListType)` and `Visit(MapType)` cases are
inlined into `pruneType` (their field patterns are destructured in place);
`Visit(StructType)` is split into the per-field loop
(`pruneStructChildren`) and the assembly loop (`assembleStruct`). -/
mutual
def pruneType (sel : List Int) (sft : Bool) : IType → Except IError (Option IType)
  | .primitive _ => .ok none
  | .structT fs =>
    match pruneStructChildren sel sft fs with
    | .error e => .error e
    | .ok pairs => .ok (assembleStruct fs pairs)
  | .listT (.mk fid fname t fopt fdoc) =>
    if sft && sel.contains fid then
      .ok (some (.listT (SField.mk fid fname t fopt fdoc)))
    else
      match pruneType sel sft t with
      | .error e => .error e
      | .ok child =>
        if sel.contains fid then
          if isStructT t then
            projectListStep (SField.mk fid fname t fopt fdoc) child
          else if isPrimitiveT t then
            .ok (some (.listT (SField.mk fid fname t fopt fdoc)))
          else .error ⟨.invalidArgument, cannotProjectListMsg fid fname⟩
        else
          match child with
          | some _ => projectListStep (SField.mk fid fname t fopt fdoc) child
          | none => .ok none
  | .mapT (.mk kf kn kt ko kd) (.mk vf vn vt vo vd) =>
    if sft && sel.contains vf then
      .ok (some (.mapT (SField.mk kf kn kt ko kd) (SField.mk vf vn vt vo vd)))
    else
      match pruneType sel sft kt with
      | .error e => .error e
      | .ok _keyResult =>
        match pruneType sel sft vt with
        | .error e => .error e
        | .ok valResult =>
          if sel.contains vf then
            if isStructT vt then
              projectMapStep (SField.mk kf kn kt ko kd) (SField.mk vf vn vt vo vd) valResult
            else if isPrimitiveT vt then
              .ok (some (.mapT (SField.mk kf kn kt ko kd) (SField.mk vf vn vt vo vd)))
            else
              .error ⟨.invalidArgument,
                cannotProjectMapMsg vf (.mapT (SField.mk kf kn kt ko kd) (SField.mk vf vn vt vo vd))⟩
          else
            match valResult with
            | some _ =>
              projectMapStep (SField.mk kf kn kt ko kd) (SField.mk vf vn vt vo vd) valResult
            | none =>
              if sel.contains kf then
                .ok (some (.mapT (SField.mk kf kn kt ko kd) (SField.mk vf vn vt vo vd)))
              else .ok none

def pruneStructChildren (sel : List Int) (sft : Bool) :
    FieldList → Except IError (List (SField × Option IType))
  | .nil => .ok []
  | .cons (.mk fid fname t fopt fdoc) fs =>
    match pruneType sel sft t with
    | .error e => .error e
    | .ok child =>
      match pruneFieldStep sel sft fid fname t child with
      | .error e => .error e
      | .ok ot =>
        match pruneStructChildren sel sft fs with
        | .error e => .error e
        | .ok rest => .ok ((SField.mk fid fname t fopt fdoc, ot) :: rest)
end

/-- `PruneColumnVisitor::Visit(StructType)` as applied to a field list. -/
def pruneStructT (sel : List Int) (sft : Bool) (fs : FieldList) :
    Except IError (Option IType) :=
  match pruneStructChildren sel sft fs with
  | .error e => .error e
  | .ok pairs => .ok (assembleStruct fs pairs)

/-- `Schema::project`: run the prune visitor with
`select_full_types = false` over the root struct; a null result yields an
empty-field schema; the schema id is inherited from the source. -/
def project (s : Schema) (sel : List Int) : Except IError Schema :=
  match pruneStructT sel false s.fields with
  | .error e => .error e
  | .ok none => .ok ⟨.nil, s.schemaId⟩
  | .ok (some t) =>
    match t with
    | .structT fs => .ok ⟨fs, s.schemaId⟩
    | _ => .error ⟨.invalidSchema, "Projected type must be a struct type"⟩

/-- The name-resolution loop of `Schema::internalSelect`: resolve each
name via `FindFieldByName`, silently skipping names that resolve to
nothing, and collect the resolved field ids. -/
def resolveSelectedIds (s : Schema) (cs : Bool) :
    List String → List Int → Except IError (List Int)
  | [], acc => .ok acc
  | nm :: rest, acc =>
    match findFieldByName s nm cs with
    | .error e => .error e
    | .ok none => resolveSelectedIds s cs rest acc
    | .ok (some f) => resolveSelectedIds s cs rest (acc ++ [f.fid])

/-- `Schema::internalSelect`: the wildcard "*" returns the schema itself;
otherwise resolve the names to an id set and run the prune visitor with
`select_full_types = true`; a null result yields an empty-field schema;
the schema id is inherited from the source. -/
def internalSelect (s : Schema) (names : List String) (cs : Bool) :
    Except IError Schema :=
  if names.contains ("*") then .ok s
  else
    match resolveSelectedIds s cs names [] with
    | .error e => .error e
    | .ok sel =>
      match pruneStructT sel true s.fields with
      | .error e => .error e
      | .ok none => .ok ⟨.nil, s.schemaId⟩
      | .ok (some t) =>
        match t with
        | .structT fs => .ok ⟨fs, s.schemaId⟩
        | _ => .error ⟨.invalidSchema, "Projected type must be a struct type"⟩

/-! ## Specification-level views of the tree -/

/- The pre-order list of field ids of a type's nested closure, in the
order the `IdToFieldVisitor` inserts them. -/
mutual
def preIdsType : IType → List Int
  | .primitive _ => []
  | .structT fs => preIdsFields fs
  | .listT e => preIdsField e
  | .mapT k v => preIdsField k ++ preIdsField v

def preIdsField : SField → List Int
  | .mk i _ t _ _ => i :: preIdsType t

def preIdsFields : FieldList → List Int
  | .nil => []
  | .cons f fs => preIdsField f ++ preIdsFields fs
end

/-- All field ids of a schema's nested closure, in visitor order. -/
def preIds (s : Schema) : List Int := preIdsFields s.fields

/- The canonical dotted-path bindings of a type walk, mirroring the
`new_path` construction of the `NameToIdVisitor` (quoting hook absent). -/
mutual
def canonBindingsType (cs : Bool) (path : String) : IType → List (String × Int)
  | .primitive _ => []
  | .structT fs => canonBindingsFields cs path fs
  | .listT e => canonBindingsField cs path e
  | .mapT k v => canonBindingsField cs path k ++ canonBindingsField cs path v

def canonBindingsField (cs : Bool) (path : String) : SField → List (String × Int)
  | .mk fid fname t _ _ =>
    (buildPath path fname cs, fid) :: canonBindingsType cs (buildPath path fname cs) t

def canonBindingsFields (cs : Bool) (path : String) : FieldList → List (String × Int)
  | .nil => []
  | .cons f fs => canonBindingsField cs path f ++ canonBindingsFields cs path fs
end

/-- The canonical path bindings of a schema (case-sensitive walk). -/
def canonBindings (s : Schema) : List (String × Int) :=
  canonBindingsFields true "" s.fields

/-- The id column of the id→field map. -/
def idKeys (m : List (Int × SField)) : List Int := m.map Prod.fst

/- A type tree that contains no list and no map container (structs and
primitives only). -/
mutual
def structOnlyT : IType → Bool
  | .primitive _ => true
  | .structT fs => structOnlyFields fs
  | .listT _ => false
  | .mapT _ _ => false

def structOnlyField : SField → Bool
  | .mk _ _ t _ _ => structOnlyT t

def structOnlyFields : FieldList → Bool
  | .nil => true
  | .cons f fs => structOnlyField f && structOnlyFields fs
end

/-- The field as Project mode includes a struct-typed field selected with
none of its descendants: same id, name, optionality and doc, but an empty
struct type. -/
def SField.emptied (f : SField) : SField :=
  .mk f.fid f.fname (.structT .nil) f.fopt f.fdoc

/-- `Occurs f t`: the field `f` appears in `t` as a member of some struct
node that is reachable from the root without entering a map's key subtree
(through struct members, list element types, and map value types). -/
inductive Occurs (f : SField) : IType → Prop where
  | here (fs : FieldList) : f ∈ fs.toList → Occurs f (.structT fs)
  | deeper (fs : FieldList) (g : SField) : g ∈ fs.toList → Occurs f g.ftype →
      Occurs f (.structT fs)
  | inList (e : SField) : Occurs f e.ftype → Occurs f (.listT e)
  | inMapValue (k v : SField) : Occurs f v.ftype → Occurs f (.mapT k v)

/-- `f` occurs in a field list: as a member or inside a member's type. -/
def OccursFL (f : SField) (l : List SField) : Prop :=
  f ∈ l ∨ ∃ g ∈ l, Occurs f g.ftype

/-- The field id a `FindFieldByName`/`FindFieldById` result resolved to,
when it resolved to a field at all. -/
def resolvedFid : Except IError (Option SField) → Option Int
  | .ok (some f) => some f.fid
  | _ => none

/-- The per-field results of a struct visit whose subtrees all pruned to
null. -/
def childrenNone : FieldList → List (SField × Option IType)
  | .nil => []
  | .cons f fs => (f, none) :: childrenNone fs

/-- The per-field results of a struct visit that kept every field's type
whole. -/
def childrenSelf : FieldList → List (SField × Option IType)
  | .nil => []
  | .cons f fs => (f, some f.ftype) :: childrenSelf fs

/-- The result of pruning a struct-only type with every id selected:
`null` for primitives and empty structs, the type itself otherwise. -/
def pruneAllRes : IType → Option IType
  | .structT (.cons f fs) => some (.structT (.cons f fs))
  | _ => none

/-! ## Concrete schemas used by counterexamples and witnesses -/

/-- `map<31 key: int, 32 value: string>`, the map type of the test suite's
`MapSchema`. -/
def mapKV : IType :=
  .mapT (.mk 31 ("key") (.primitive ("int")) false "")
        (.mk 32 ("value") (.primitive ("string")) false "")

/-- The test suite's `MapSchema`: a single field `33: map_field` of type
`mapKV`, schema id 100. -/
def mapFieldSchema : Schema :=
  ⟨.cons (.mk 33 ("map_field") mapKV true "") .nil, some 100⟩

/-- A schema with a duplicated field id: `[1: outer int, 2: nested
struct[1: inner string]]` (the test suite's `NestedDuplicateFieldIdError`
schema). -/
def dupIdSchema : Schema :=
  ⟨.cons (.mk 1 ("outer") (.primitive ("int")) true "")
    (.cons (.mk 2 ("nested")
        (.structT (.cons (.mk 1 ("inner") (.primitive ("string")) true "") .nil))
        true "") .nil), some 1⟩

/-- A schema with two field ids on the same canonical path "a.b":
`[1: a struct[2: b int], 3: "a.b" int]`. -/
def dupPathSchema : Schema :=
  ⟨.cons (.mk 1 ("a")
      (.structT (.cons (.mk 2 ("b") (.primitive ("int")) false "") .nil)) false "")
    (.cons (.mk 3 ("a.b") (.primitive ("int")) false "") .nil), some 1⟩

/-- A well-formed schema where the short name "l.x" of the list-element
child `3: x` is shadowed by the canonical path of the sibling field
`4: "l.x"`. -/
def shadowSchema : Schema :=
  ⟨.cons (.mk 1 ("l")
      (.listT (.mk 2 ("element")
        (.structT (.cons (.mk 3 ("x") (.primitive ("int")) false "") .nil)) false ""))
      false "")
    (.cons (.mk 4 ("l.x") (.primitive ("int")) false "") .nil), some 1⟩

/-- The test suite's `ListWithStructElementSchema`: a single list field
whose element `53` is a struct with one child `51: name`. -/
def listElemSchema : Schema :=
  ⟨.cons (.mk 54 ("list_field")
      (.listT (.mk 53 ("element")
        (.structT (.cons (.mk 51 ("name") (.primitive ("string")) true "") .nil)) false ""))
      true "") .nil, some 100⟩

/-- The struct-only `NestedUserSchema` of the test suite:
`[16: id, 15: user struct[14: name, 13: address struct[11: street, 12: city]]]`. -/
def nestedUserSchema : Schema :=
  ⟨.cons (.mk 16 ("id") (.primitive ("int")) false "")
    (.cons (.mk 15 ("user")
      (.structT (.cons (.mk 14 ("name") (.primitive ("string")) true "")
        (.cons (.mk 13 ("address")
          (.structT (.cons (.mk 11 ("street") (.primitive ("string")) true "")
            (.cons (.mk 12 ("city") (.primitive ("string")) true "") .nil)))
          true "") .nil)))
      true "") .nil), some 300⟩

/-- The struct-typed `13: address` field of `nestedUserSchema`. -/
def addrField : SField :=
  .mk 13 ("address")
    (.structT (.cons (.mk 11 ("street") (.primitive ("string")) true "")
      (.cons (.mk 12 ("city") (.primitive ("string")) true "") .nil))) true ""

/-- The `15: user` field of `nestedUserSchema`. -/
def userField : SField :=
  .mk 15 ("user")
    (.structT (.cons (.mk 14 ("name") (.primitive ("string")) true "")
      (.cons addrField .nil))) true ""

/-- A family of schemas, parameterized over all field ids and the schema
id, with a list `l` of struct elements containing child `x`, and a map `m`
whose struct key and struct value each contain a child named `x`. -/
def c6Schema (lid eid xid mid kid kxid vid vxid : Int) (sid : Option Int) : Schema :=
  ⟨.cons (.mk lid ("l")
      (.listT (.mk eid ("element")
        (.structT (.cons (.mk xid ("x") (.primitive ("int")) false "") .nil)) false ""))
      false "")
    (.cons (.mk mid ("m")
      (.mapT (.mk kid ("key")
          (.structT (.cons (.mk kxid ("x") (.primitive ("int")) false "") .nil)) false "")
        (.mk vid ("value")
          (.structT (.cons (.mk vxid ("x") (.primitive ("int")) false "") .nil)) false ""))
      false "") .nil), sid⟩

/-- A family of schemas with a map `m` whose key is a struct containing a
child `x` and whose value is primitive (so no value-side short names can
arise at all). -/
def c6KeySchema (mid kid kxid vid : Int) (sid : Option Int) : Schema :=
  ⟨.cons (.mk mid ("m")
      (.mapT (.mk kid ("key")
          (.structT (.cons (.mk kxid ("x") (.primitive ("int")) false "") .nil)) false "")
        (.mk vid ("value") (.primitive ("int")) false ""))
      false "") .nil, sid⟩

/-! ## Basic lemmas -/

theorem typeEq_refl (t : IType) : typeEq t t = true := by
  simp [typeEq]

theorem typeEq_eq {a b : IType} (h : typeEq a b = true) : a = b := by
  simpa [typeEq] using h

theorem lookupId_eq_none {m : List (Int × SField)} {i : Int} :
    lookupId m i = none ↔ i ∉ idKeys m := by
  induction m with
  | nil => simp [lookupId, idKeys]
  | cons p rest ih =>
    obtain ⟨k, f⟩ := p
    by_cases h : k = i
    · subst h
      simp [lookupId, idKeys]
    · simp only [lookupId, if_neg h, idKeys, List.map_cons, List.mem_cons, ih]
      constructor
      · intro hni hc
        rcases hc with hc | hc
        · exact h hc.symm
        · exact hni hc
      · intro hni hc
        exact hni (Or.inr hc)

theorem lookupS_eq_none {m : List (String × Int)} {p : String} :
    lookupS m p = none ↔ p ∉ m.map Prod.fst := by
  induction m with
  | nil => simp [lookupS]
  | cons q rest ih =>
    obtain ⟨k, v⟩ := q
    by_cases h : k = p
    · subst h
      simp [lookupS]
    · simp only [lookupS, if_neg h, List.map_cons, List.mem_cons, ih]
      constructor
      · intro hni hc
        rcases hc with hc | hc
        · exact h hc.symm
        · exact hni hc
      · intro hni hc
        exact hni (Or.inr hc)

theorem lookupS_mem {m : List (String × Int)} {p : String} {i : Int}
    (h : lookupS m p = some i) : (p, i) ∈ m := by
  induction m with
  | nil => simp [lookupS] at h
  | cons q rest ih =>
    obtain ⟨k, v⟩ := q
    by_cases hk : k = p
    · subst hk
      simp [lookupS] at h
      subst h
      exact List.mem_cons_self _ _
    · simp only [lookupS, if_neg hk] at h
      exact List.mem_cons_of_mem _ (ih h)

theorem contains_true_iff {l : List Int} {a : Int} : l.contains a = true ↔ a ∈ l :=
  ⟨List.mem_of_elem_eq_true, List.elem_eq_true_of_mem⟩

theorem contains_false_iff {l : List Int} {a : Int} : l.contains a = false ↔ a ∉ l := by
  rw [← Bool.not_eq_true]
  exact not_congr contains_true_iff

/-- In a map whose key column has no duplicates, two bindings of the same
key carry the same value. -/
theorem nodup_fst_inj {m : List (String × Int)} (hnd : (m.map Prod.fst).Nodup)
    {p : String} {i j : Int} (hi : (p, i) ∈ m) (hj : (p, j) ∈ m) : i = j := by
  induction m with
  | nil => simp at hi
  | cons q rest ih =>
    obtain ⟨k, v⟩ := q
    simp only [List.map_cons, List.nodup_cons] at hnd
    rcases List.mem_cons.mp hi with hi1 | hi1 <;>
      rcases List.mem_cons.mp hj with hj1 | hj1
    · rw [Prod.mk.injEq] at hi1 hj1
      rw [hi1.2, hj1.2]
    · rw [Prod.mk.injEq] at hi1
      exact absurd (hi1.1 ▸ List.mem_map_of_mem Prod.fst hj1) hnd.1
    · rw [Prod.mk.injEq] at hj1
      exact absurd (hj1.1 ▸ List.mem_map_of_mem Prod.fst hi1) hnd.1
    · exact ih hnd.2 hi1 hj1

theorem idKeys_append (a b : List (Int × SField)) :
    idKeys (a ++ b) = idKeys a ++ idKeys b :=
  List.map_append _ a b

theorem lookupId_some_mem_keys {m : List (Int × SField)} {i : Int} {f : SField}
    (h : lookupId m i = some f) : i ∈ idKeys m := by
  by_contra hn
  rw [lookupId_eq_none.mpr hn] at h
  cases h
/- Success of the `IdToFieldVisitor`: the key column of the resulting map
extends the accumulator's key column by the subtree's pre-order ids. -/
mutual
theorem idVisitType_ok : ∀ (t : IType) (acc m : List (Int × SField)),
    idVisitType acc t = (m, none) → idKeys m = idKeys acc ++ preIdsType t
  | .primitive _, acc, m, h => by
    have h2 : (acc, (none : Option IError)) = (m, none) := h
    injection h2 with h1 _
    rw [← h1, preIdsType]
    simp
  | .structT fs, acc, m, h => by
    rw [preIdsType]
    exact idVisitFields_ok fs acc m h
  | .listT e, acc, m, h => by
    rw [preIdsType]
    exact idVisitField_ok e acc m h
  | .mapT k v, acc, m, h => by
    rw [preIdsType]
    simp only [idVisitType] at h
    rcases hk : idVisitField acc k with ⟨acc2, e?⟩
    cases e? with
    | none =>
      rw [hk] at h
      have h1 := idVisitField_ok k acc acc2 hk
      have h2 := idVisitField_ok v acc2 m h
      rw [h2, h1, List.append_assoc]
    | some e0 =>
      rw [hk] at h
      have h2 : (acc2, some e0) = (m, none) := h
      injection h2 with _ hno
      exact Option.noConfusion hno

theorem idVisitField_ok : ∀ (f : SField) (acc m : List (Int × SField)),
    idVisitField acc f = (m, none) → idKeys m = idKeys acc ++ preIdsField f
  | .mk i n t o d, acc, m, h => by
    rw [preIdsField]
    simp only [idVisitField] at h
    rcases hl : lookupId acc i with _ | f0
    · rw [hl] at h
      have h1 := idVisitType_ok t (acc ++ [(i, SField.mk i n t o d)]) m h
      rw [h1, idKeys_append]
      simp [idKeys]
    · rw [hl] at h
      have h2 : ((acc, some (⟨.invalidSchema, dupIdMsg i⟩ : IError)) :
          List (Int × SField) × Option IError) = (m, none) := h
      injection h2 with _ hno
      exact Option.noConfusion hno

theorem idVisitFields_ok : ∀ (fs : FieldList) (acc m : List (Int × SField)),
    idVisitFields acc fs = (m, none) → idKeys m = idKeys acc ++ preIdsFields fs
  | .nil, acc, m, h => by
    have h2 : (acc, (none : Option IError)) = (m, none) := h
    injection h2 with h1 _
    rw [← h1, preIdsFields]
    simp
  | .cons f fs, acc, m, h => by
    rw [preIdsFields]
    simp only [idVisitFields] at h
    rcases hf : idVisitField acc f with ⟨acc2, e?⟩
    cases e? with
    | none =>
      rw [hf] at h
      have h1 := idVisitField_ok f acc acc2 hf
      have h2 := idVisitFields_ok fs acc2 m h
      rw [h2, h1, List.append_assoc]
    | some e0 =>
      rw [hf] at h
      have h2 : (acc2, some e0) = (m, none) := h
      injection h2 with _ hno
      exact Option.noConfusion hno
end

/- A successful build keeps the key column duplicate-free. -/
mutual
theorem idVisitType_nodup : ∀ (t : IType) (acc m : List (Int × SField)),
    idVisitType acc t = (m, none) → (idKeys acc).Nodup → (idKeys m).Nodup
  | .primitive _, acc, m, h, hnd => by
    have h2 : (acc, (none : Option IError)) = (m, none) := h
    injection h2 with h1 _
    rw [← h1]
    exact hnd
  | .structT fs, acc, m, h, hnd => idVisitFields_nodup fs acc m h hnd
  | .listT e, acc, m, h, hnd => idVisitField_nodup e acc m h hnd
  | .mapT k v, acc, m, h, hnd => by
    simp only [idVisitType] at h
    rcases hk : idVisitField acc k with ⟨acc2, e?⟩
    cases e? with
    | none =>
      rw [hk] at h
      exact idVisitField_nodup v acc2 m h (idVisitField_nodup k acc acc2 hk hnd)
    | some e0 =>
      rw [hk] at h
      have h2 : (acc2, some e0) = (m, none) := h
      injection h2 with _ hno
      exact Option.noConfusion hno

theorem idVisitField_nodup : ∀ (f : SField) (acc m : List (Int × SField)),
    idVisitField acc f = (m, none) → (idKeys acc).Nodup → (idKeys m).Nodup
  | .mk i n t o d, acc, m, h, hnd => by
    simp only [idVisitField] at h
    rcases hl : lookupId acc i with _ | f0
    · rw [hl] at h
      refine idVisitType_nodup t _ m h ?_
      rw [idKeys_append]
      refine List.nodup_append.mpr ⟨hnd, by simp [idKeys], ?_⟩
      intro a ha hb
      simp [idKeys] at hb
      subst hb
      exact lookupId_eq_none.mp hl ha
    · rw [hl] at h
      have h2 : ((acc, some (⟨.invalidSchema, dupIdMsg i⟩ : IError)) :
          List (Int × SField) × Option IError) = (m, none) := h
      injection h2 with _ hno
      exact Option.noConfusion hno

theorem idVisitFields_nodup : ∀ (fs : FieldList) (acc m : List (Int × SField)),
    idVisitFields acc fs = (m, none) → (idKeys acc).Nodup → (idKeys m).Nodup
  | .nil, acc, m, h, hnd => by
    have h2 : (acc, (none : Option IError)) = (m, none) := h
    injection h2 with h1 _
    rw [← h1]
    exact hnd
  | .cons f fs, acc, m, h, hnd => by
    simp only [idVisitFields] at h
    rcases hf : idVisitField acc f with ⟨acc2, e?⟩
    cases e? with
    | none =>
      rw [hf] at h
      exact idVisitFields_nodup fs acc2 m h (idVisitField_nodup f acc acc2 hf hnd)
    | some e0 =>
      rw [hf] at h
      have h2 : (acc2, some e0) = (m, none) := h
      injection h2 with _ hno
      exact Option.noConfusion hno
end

/- When the accumulated keys plus the subtree's ids are duplicate-free,
the build succeeds. -/
mutual
theorem idVisitType_exists : ∀ (t : IType) (acc : List (Int × SField)),
    (idKeys acc ++ preIdsType t).Nodup → ∃ m, idVisitType acc t = (m, none)
  | .primitive _, acc, _ => ⟨acc, rfl⟩
  | .structT fs, acc, hnd => by
    rw [preIdsType] at hnd
    exact idVisitFields_exists fs acc hnd
  | .listT e, acc, hnd => by
    rw [preIdsType] at hnd
    exact idVisitField_exists e acc hnd
  | .mapT k v, acc, hnd => by
    rw [preIdsType, ← List.append_assoc] at hnd
    obtain ⟨acc2, hk⟩ := idVisitField_exists k acc (List.nodup_append.mp hnd).1
    have hkeys := idVisitField_ok k acc acc2 hk
    obtain ⟨m, hv⟩ := idVisitField_exists v acc2 (by rw [hkeys]; exact hnd)
    refine ⟨m, ?_⟩
    simp only [idVisitType]
    rw [hk]
    exact hv

theorem idVisitField_exists : ∀ (f : SField) (acc : List (Int × SField)),
    (idKeys acc ++ preIdsField f).Nodup → ∃ m, idVisitField acc f = (m, none)
  | .mk i n t o d, acc, hnd => by
    rw [preIdsField] at hnd
    have hdisj := (List.nodup_append.mp hnd).2.2
    have hni : i ∉ idKeys acc := fun hmem => hdisj hmem (List.mem_cons_self _ _)
    have hnd2 : (idKeys (acc ++ [(i, SField.mk i n t o d)]) ++ preIdsType t).Nodup := by
      rw [idKeys_append]
      have heq : idKeys acc ++ i :: preIdsType t =
          (idKeys acc ++ idKeys [(i, SField.mk i n t o d)]) ++ preIdsType t := by
        simp [idKeys]
      rw [← heq]
      exact hnd
    obtain ⟨m, ht⟩ := idVisitType_exists t (acc ++ [(i, SField.mk i n t o d)]) hnd2
    refine ⟨m, ?_⟩
    simp only [idVisitField]
    rw [lookupId_eq_none.mpr hni]
    exact ht

theorem idVisitFields_exists : ∀ (fs : FieldList) (acc : List (Int × SField)),
    (idKeys acc ++ preIdsFields fs).Nodup → ∃ m, idVisitFields acc fs = (m, none)
  | .nil, acc, _ => ⟨acc, rfl⟩
  | .cons f fs, acc, hnd => by
    rw [preIdsFields, ← List.append_assoc] at hnd
    obtain ⟨acc2, hf⟩ := idVisitField_exists f acc (List.nodup_append.mp hnd).1
    have hkeys := idVisitField_ok f acc acc2 hf
    obtain ⟨m, hrest⟩ := idVisitFields_exists fs acc2 (by rw [hkeys]; exact hnd)
    refine ⟨m, ?_⟩
    simp only [idVisitFields]
    rw [hf]
    exact hrest
end

/- A failing build reports a genuinely duplicated id and leaves a
non-empty partial map behind. -/
mutual
theorem idVisitType_err : ∀ (t : IType) (acc m : List (Int × SField)) (e : IError),
    idVisitType acc t = (m, some e) →
    (∃ d, e = ⟨.invalidSchema, dupIdMsg d⟩ ∧
      2 ≤ (idKeys acc ++ preIdsType t).count d) ∧ m ≠ []
  | .primitive _, acc, m, e, h => by
    have h2 : (acc, (none : Option IError)) = (m, some e) := h
    injection h2 with _ hno
    exact Option.noConfusion hno
  | .structT fs, acc, m, e, h => by
    rw [preIdsType]
    exact idVisitFields_err fs acc m e h
  | .listT el, acc, m, e, h => by
    rw [preIdsType]
    exact idVisitField_err el acc m e h
  | .mapT k v, acc, m, e, h => by
    rw [preIdsType]
    simp only [idVisitType] at h
    rcases hk : idVisitField acc k with ⟨acc2, e?⟩
    cases e? with
    | none =>
      rw [hk] at h
      have hkeys := idVisitField_ok k acc acc2 hk
      obtain ⟨⟨d, hd, hc⟩, hne⟩ := idVisitField_err v acc2 m e h
      refine ⟨⟨d, hd, ?_⟩, hne⟩
      rw [hkeys] at hc
      calc 2 ≤ ((idKeys acc ++ preIdsField k) ++ preIdsField v).count d := hc
        _ = (idKeys acc ++ (preIdsField k ++ preIdsField v)).count d := by
            rw [List.append_assoc]
    | some e0 =>
      rw [hk] at h
      have h2 : (acc2, some e0) = (m, some e) := h
      injection h2 with hm he
      injection he with he2
      obtain ⟨⟨d, hd, hc⟩, hne⟩ := idVisitField_err k acc acc2 e0 hk
      refine ⟨⟨d, he2 ▸ hd, ?_⟩, hm ▸ hne⟩
      calc 2 ≤ (idKeys acc ++ preIdsField k).count d := hc
        _ ≤ (idKeys acc ++ (preIdsField k ++ preIdsField v)).count d := by
            rw [← List.append_assoc]
            simp [List.count_append]

theorem idVisitField_err : ∀ (f : SField) (acc m : List (Int × SField)) (e : IError),
    idVisitField acc f = (m, some e) →
    (∃ d, e = ⟨.invalidSchema, dupIdMsg d⟩ ∧
      2 ≤ (idKeys acc ++ preIdsField f).count d) ∧ m ≠ []
  | .mk i n t o d0, acc, m, e, h => by
    rw [preIdsField]
    simp only [idVisitField] at h
    rcases hl : lookupId acc i with _ | f0
    · rw [hl] at h
      obtain ⟨⟨d, hd, hc⟩, hne⟩ := idVisitType_err t _ m e h
      refine ⟨⟨d, hd, ?_⟩, hne⟩
      rw [idKeys_append] at hc
      calc 2 ≤ ((idKeys acc ++ idKeys [(i, SField.mk i n t o d0)]) ++ preIdsType t).count d := hc
        _ = (idKeys acc ++ i :: preIdsType t).count d := by
            simp [idKeys, List.count_append]
    · rw [hl] at h
      have h2 : ((acc, some (⟨.invalidSchema, dupIdMsg i⟩ : IError)) :
          List (Int × SField) × Option IError) = (m, some e) := h
      injection h2 with hm he
      injection he with he2
      refine ⟨⟨i, he2 ▸ rfl, ?_⟩, ?_⟩
      · have h1 : 0 < (idKeys acc).count i :=
          List.count_pos_iff.mpr (lookupId_some_mem_keys hl)
        have hcc : (idKeys acc ++ i :: preIdsType t).count i =
            (idKeys acc).count i + (i :: preIdsType t).count i :=
          List.count_append i _ _
        have h2c : 0 < (i :: preIdsType t).count i := by
          simp [List.count_cons]
        omega
      · intro hnil
        rw [hm, hnil] at hl
        exact Option.noConfusion hl

theorem idVisitFields_err : ∀ (fs : FieldList) (acc m : List (Int × SField)) (e : IError),
    idVisitFields acc fs = (m, some e) →
    (∃ d, e = ⟨.invalidSchema, dupIdMsg d⟩ ∧
      2 ≤ (idKeys acc ++ preIdsFields fs).count d) ∧ m ≠ []
  | .nil, acc, m, e, h => by
    have h2 : (acc, (none : Option IError)) = (m, some e) := h
    injection h2 with _ hno
    exact Option.noConfusion hno
  | .cons f fs, acc, m, e, h => by
    rw [preIdsFields]
    simp only [idVisitFields] at h
    rcases hf : idVisitField acc f with ⟨acc2, e?⟩
    cases e? with
    | none =>
      rw [hf] at h
      have hkeys := idVisitField_ok f acc acc2 hf
      obtain ⟨⟨d, hd, hc⟩, hne⟩ := idVisitFields_err fs acc2 m e h
      refine ⟨⟨d, hd, ?_⟩, hne⟩
      rw [hkeys] at hc
      calc 2 ≤ ((idKeys acc ++ preIdsField f) ++ preIdsFields fs).count d := hc
        _ = (idKeys acc ++ (preIdsField f ++ preIdsFields fs)).count d := by
            rw [List.append_assoc]
    | some e0 =>
      rw [hf] at h
      have h2 : (acc2, some e0) = (m, some e) := h
      injection h2 with hm he
      injection he with he2
      obtain ⟨⟨d, hd, hc⟩, hne⟩ := idVisitField_err f acc acc2 e0 hf
      refine ⟨⟨d, he2 ▸ hd, ?_⟩, hm ▸ hne⟩
      calc 2 ≤ (idKeys acc ++ preIdsField f).count d := hc
        _ ≤ (idKeys acc ++ (preIdsField f ++ preIdsFields fs)).count d := by
            rw [← List.append_assoc]
            simp [List.count_append]
end
/-! ## Claim C1 -/

/-- Claim C1 (code bug): at the failing input — a schema holding one map
field `33: map<31 key, 32 value>` with both children primitive —
`Project({31})` (the key id alone, value id excluded) returns success and
keeps the entire map, where the claim, the spec and the repository's own
test `ProjectMapWithOnlyKey` require an `InvalidArgument` error. -/
theorem c1_project_map_key_only_succeeds :
    project mapFieldSchema [31] = .ok mapFieldSchema := rfl

/-! ## Claim C9 -/

/-- Claim C9: `project` and `internalSelect` never mutate the source
schema (they are pure functions of it in this embedding; the C++ members
`fields_` and `schema_id_` are immutable), and every successfully returned
schema — including the empty-field schema produced when pruning removes
everything — carries the source schema's `schema_id`. -/
theorem c9_schema_id_inherited (s : Schema) (sel : List Int)
    (names : List String) (cs : Bool) (s1 s2 : Schema) :
    (project s sel = .ok s1 → s1.schemaId = s.schemaId) ∧
    (internalSelect s names cs = .ok s2 → s2.schemaId = s.schemaId) := by
  constructor
  · intro h
    unfold project at h
    repeat' split at h
    all_goals first
      | exact Except.noConfusion h
      | (injection h with h2; subst h2; rfl)
  · intro h
    unfold internalSelect at h
    repeat' split at h
    all_goals first
      | exact Except.noConfusion h
      | (injection h with h2; subst h2; rfl)

/-- Witness for C9 at a concrete schema: projecting a non-existent id
yields the empty schema with the inherited schema id 100, and selecting by
name keeps it as well. -/
theorem c9_schema_id_inherited_witness :
    project mapFieldSchema [999] = .ok ⟨.nil, some 100⟩ ∧
    (⟨.nil, some 100⟩ : Schema).schemaId = mapFieldSchema.schemaId ∧
    internalSelect mapFieldSchema [("map_field")] true = .ok mapFieldSchema ∧
    mapFieldSchema.schemaId = mapFieldSchema.schemaId := by
  refine ⟨rfl, ?_, rfl, rfl⟩
  exact (c9_schema_id_inherited mapFieldSchema [999] [("map_field")] true
    ⟨.nil, some 100⟩ mapFieldSchema).1 rfl

/-! ## Claim C10 -/

/-- Claim C10: in Select mode (`select_full_types = true`), whenever the
map's value field id is selected the visitor keeps the entire map — key
and value subtrees unchanged — regardless of whether the key id is
selected; lifted to a struct around the map field, the field survives with
its full original map type. -/
theorem c10_select_value_id_keeps_whole_map (sel : List Int)
    (k v : SField) (mid : Int) (mname : String) (mo : Bool) (md : String)
    (hv : sel.contains v.fid = true) (hm : sel.contains mid = false) :
    pruneType sel true (.mapT k v) = .ok (some (.mapT k v)) ∧
    pruneStructT sel true (.cons (.mk mid mname (.mapT k v) mo md) .nil) =
      .ok (some (.structT (.cons (.mk mid mname (.mapT k v) mo md) .nil))) := by
  obtain ⟨kf, kn, kt, ko, kd⟩ := k
  obtain ⟨vf, vn, vt, vo, vd⟩ := v
  simp only [SField.fid] at hv
  have hv2 : vf ∈ sel := contains_true_iff.mp hv
  have hm2 : mid ∉ sel := contains_false_iff.mp hm
  have h1 : pruneType sel true
      (.mapT (.mk kf kn kt ko kd) (.mk vf vn vt vo vd)) =
      .ok (some (.mapT (.mk kf kn kt ko kd) (.mk vf vn vt vo vd))) := by
    simp [pruneType, hv2]
  refine ⟨h1, ?_⟩
  simp [pruneStructT, pruneStructChildren, pruneFieldStep, h1, hm2,
    assembleStruct, selectedFieldOf, sameTypeOf, typeEq_refl,
    FieldList.length, SField.ftype]

/-- Witness for C10: the map schema's value id 32 selected (key id 31 and
map field id 33 not selected) keeps the whole map. -/
theorem c10_select_value_id_keeps_whole_map_witness :
    ([32] : List Int).contains 32 = true ∧ ([32] : List Int).contains 33 = false ∧
    pruneStructT [32] true mapFieldSchema.fields =
      .ok (some (.structT mapFieldSchema.fields)) := by
  refine ⟨by decide, by decide, ?_⟩
  exact (c10_select_value_id_keeps_whole_map [32]
    (.mk 31 ("key") (.primitive ("int")) false "")
    (.mk 32 ("value") (.primitive ("string")) false "")
    33 ("map_field") true "" (by decide) (by decide)).2

/-! ## Counterexamples for corrected claims -/

/-- Claim C2 counterexample: on the duplicate-id schema the first
`FindFieldById` reports `InvalidSchema`, but a second call — running on
the cache state the failed build left behind — returns a success computed
from the partially populated index, refuting "every call to FindFieldById
(not only the first) returns the InvalidSchema error". -/
theorem c2_second_lookup_succeeds_counterexample :
    (findFieldByIdSt dupIdSchema 1 []).1 = .error ⟨.invalidSchema, dupIdMsg 1⟩ ∧
    (findFieldByIdSt dupIdSchema 1 (findFieldByIdSt dupIdSchema 1 []).2).1 =
      .ok (some (.mk 1 ("outer") (.primitive ("int")) true "")) :=
  ⟨rfl, rfl⟩

/-- Claim C3 counterexample: the map schema is well-formed (no duplicate
ids, no duplicate canonical paths), yet projecting the set of all its
field ids `{33, 31, 32}` fails with `InvalidArgument` ("Cannot explicitly
project List or Map types") instead of reproducing the schema. -/
theorem c3_project_all_ids_fails_counterexample :
    (preIds mapFieldSchema).Nodup ∧
    ((canonBindings mapFieldSchema).map Prod.fst).Nodup ∧
    project mapFieldSchema (preIds mapFieldSchema) =
      .error ⟨.invalidArgument, cannotProjectStructMsg 33 ("map_field") mapKV⟩ :=
  ⟨by decide, by decide, rfl⟩

/-- Claim C6 counterexample: `shadowSchema` is well-formed and contains a
list `l` of struct elements with child `3: x`, but the sibling field
literally named "l.x" (id 4) owns the canonical path "l.x", which takes
precedence over the short name: "l.element.x" resolves to id 3 while
"l.x" resolves to id 4. -/
theorem c6_shadowed_short_name_counterexample :
    (preIds shadowSchema).Nodup ∧
    ((canonBindings shadowSchema).map Prod.fst).Nodup ∧
    resolvedFid (findFieldByName shadowSchema ("l.element.x") true) = some 3 ∧
    resolvedFid (findFieldByName shadowSchema ("l.x") true) = some 4 ∧
    resolvedFid (findFieldByName shadowSchema ("l.x") true) ≠
      resolvedFid (findFieldByName shadowSchema ("l.element.x") true) :=
  ⟨by decide, by decide, rfl, rfl, by decide⟩

/-- Claim C7 counterexample: in `listElemSchema` the list element `53` is
a struct-typed field; projecting exactly `{53}` (none of its descendants)
does not yield field 53 as an empty struct — it fails with
`InvalidArgument` from `ProjectList`. -/
theorem c7_project_list_element_fails_counterexample :
    (preIds listElemSchema).Nodup ∧
    project listElemSchema [53] =
      .error ⟨.invalidArgument, "Cannot project a list when the element result is null"⟩ :=
  ⟨by decide, rfl⟩

/-! ## Claim C2 (amended) -/

/-- Claim C2 (amended): on a schema whose nested closure duplicates a
field id, the FIRST `FindFieldById` returns the `InvalidSchema` error, but
the failed build leaves its partially inserted entries in the cache (the
cache is non-empty), so every subsequent lookup treats the index as
already built and returns a success result computed from the partial
index instead of the error. -/
theorem c2_failed_build_leaves_partial_cache (s : Schema) (q q2 : Int)
    (h : ¬ (preIds s).Nodup) :
    ∃ e st, findFieldByIdSt s q [] = (.error e, st) ∧
      e.kind = .invalidSchema ∧ st ≠ [] ∧
      (findFieldByIdSt s q2 st).1 = .ok (lookupId st q2) := by
  rcases hb : idVisitFields [] s.fields with ⟨m, e?⟩
  cases e? with
  | none =>
    exfalso
    apply h
    have hk := idVisitFields_ok s.fields [] m hb
    have hn := idVisitFields_nodup s.fields [] m hb (by simp [idKeys])
    rw [hk] at hn
    simpa [idKeys, preIds] using hn
  | some e =>
    obtain ⟨⟨d, hd, _⟩, hne⟩ := idVisitFields_err s.fields [] m e hb
    refine ⟨e, m, ?_, ?_, hne, ?_⟩
    · simp [findFieldByIdSt, initIdToFieldMap, hb]
    · rw [hd]
    · have hm : m.isEmpty = false := by
        cases m
        · exact absurd rfl hne
        · rfl
      simp [findFieldByIdSt, initIdToFieldMap, hm]

/-- Witness for the amended C2 at the duplicate-id schema: the first call
errors, the second call succeeds from the partial cache. -/
theorem c2_failed_build_leaves_partial_cache_witness :
    ¬ (preIds dupIdSchema).Nodup ∧
    ∃ e st, findFieldByIdSt dupIdSchema 1 [] = (.error e, st) ∧
      e.kind = .invalidSchema ∧ st ≠ [] ∧
      (findFieldByIdSt dupIdSchema 2 st).1 = .ok (lookupId st 2) :=
  ⟨by decide, c2_failed_build_leaves_partial_cache dupIdSchema 1 2 (by decide)⟩

/-! ## Claim C4 -/

/-- Claim C4: on a schema with two fields sharing an id anywhere in the
nested closure, `FindFieldById` (first call, fresh cache) returns a typed
`InvalidSchema` error whose message carries a genuinely duplicated id
(never a crash: every function of this embedding is total); on a schema
with no duplicate ids, looking up an absent id is success-with-empty, not
an error. -/
theorem c4_duplicate_id_error_and_not_found_success (s : Schema) (q i : Int) :
    (¬ (preIds s).Nodup →
      ∃ d, findFieldById s q = .error ⟨.invalidSchema, dupIdMsg d⟩ ∧
        2 ≤ (preIds s).count d) ∧
    ((preIds s).Nodup → i ∉ preIds s → findFieldById s i = .ok none) := by
  constructor
  · intro h
    rcases hb : idVisitFields [] s.fields with ⟨m, e?⟩
    cases e? with
    | none =>
      exfalso
      apply h
      have hk := idVisitFields_ok s.fields [] m hb
      have hn := idVisitFields_nodup s.fields [] m hb (by simp [idKeys])
      rw [hk] at hn
      simpa [idKeys, preIds] using hn
    | some e =>
      obtain ⟨⟨d, hd, hc⟩, _⟩ := idVisitFields_err s.fields [] m e hb
      refine ⟨d, ?_, ?_⟩
      · rw [← hd]
        simp [findFieldById, findFieldByIdSt, initIdToFieldMap, hb]
      · simpa [idKeys, preIds] using hc
  · intro hnd hni
    obtain ⟨m, hb⟩ := idVisitFields_exists s.fields []
      (by simpa [idKeys, preIds] using hnd)
    have hk := idVisitFields_ok s.fields [] m hb
    have hl : lookupId m i = none := by
      apply lookupId_eq_none.mpr
      rw [hk]
      simpa [idKeys, preIds] using hni
    simp [findFieldById, findFieldByIdSt, initIdToFieldMap, hb, hl]

/-- Witness for C4: the duplicate-id schema yields the typed
`InvalidSchema` error, and the (duplicate-free) map schema returns
success-with-empty for the absent id 999. -/
theorem c4_duplicate_id_error_and_not_found_success_witness :
    (¬ (preIds dupIdSchema).Nodup) ∧ (preIds mapFieldSchema).Nodup ∧
    ((999 : Int) ∉ preIds mapFieldSchema) ∧
    (∃ d, findFieldById dupIdSchema 1 = .error ⟨.invalidSchema, dupIdMsg d⟩ ∧
      2 ≤ (preIds dupIdSchema).count d) ∧
    findFieldById mapFieldSchema 999 = .ok none :=
  ⟨by decide, by decide, by decide,
    (c4_duplicate_id_error_and_not_found_success dupIdSchema 1 999).1 (by decide),
    (c4_duplicate_id_error_and_not_found_success mapFieldSchema 1 999).2
      (by decide) (by decide)⟩

/-! ## Prune-visitor lemmas -/

theorem toList_length : ∀ fs : FieldList, fs.toList.length = fs.length
  | .nil => rfl
  | .cons _ fs => by simp [FieldList.toList, FieldList.length, toList_length fs]

theorem foldr_selectedFieldOf_childrenNone : ∀ fs : FieldList,
    (childrenNone fs).foldr selectedFieldOf [] = []
  | .nil => rfl
  | .cons f fs => by
    simp [childrenNone, selectedFieldOf, foldr_selectedFieldOf_childrenNone fs]

theorem assembleStruct_childrenNone (fs : FieldList) :
    assembleStruct fs (childrenNone fs) = none := by
  simp [assembleStruct, foldr_selectedFieldOf_childrenNone]

theorem foldr_selectedFieldOf_childrenSelf : ∀ fs : FieldList,
    (childrenSelf fs).foldr selectedFieldOf [] = fs.toList
  | .nil => rfl
  | .cons f fs => by
    simp [childrenSelf, FieldList.toList, selectedFieldOf, typeEq_refl,
      foldr_selectedFieldOf_childrenSelf fs]

theorem all_sameTypeOf_childrenSelf : ∀ fs : FieldList,
    (childrenSelf fs).all sameTypeOf = true
  | .nil => rfl
  | .cons f fs => by
    simp [childrenSelf, sameTypeOf, typeEq_refl, all_sameTypeOf_childrenSelf fs]

theorem assembleStruct_childrenSelf_cons (f : SField) (fs : FieldList) :
    assembleStruct (.cons f fs) (childrenSelf (.cons f fs)) =
      some (.structT (.cons f fs)) := by
  simp [assembleStruct, foldr_selectedFieldOf_childrenSelf,
    all_sameTypeOf_childrenSelf, toList_length, FieldList.toList,
    FieldList.length]

/- A subtree none of whose ids is selected prunes to null (in either
mode). -/
mutual
theorem pruneType_disjoint (sel : List Int) (sft : Bool) : ∀ t : IType,
    (∀ j ∈ preIdsType t, j ∉ sel) → pruneType sel sft t = .ok none
  | .primitive _, _ => rfl
  | .structT fs, h => by
    have hc := pruneStructChildren_disjoint sel sft fs (by
      intro j hj
      exact h j (by rw [preIdsType]; exact hj))
    rw [pruneType, hc]
    simp [assembleStruct_childrenNone]
  | .listT (.mk fid fname t fopt fdoc), h => by
    have h1 : fid ∉ sel := h fid (by simp [preIdsType, preIdsField])
    have h2 : ∀ j ∈ preIdsType t, j ∉ sel := by
      intro j hj
      refine h j ?_
      simp [preIdsType, preIdsField]
      tauto
    have hchild := pruneType_disjoint sel sft t h2
    rw [pruneType]
    simp [hchild, h1]
  | .mapT (.mk kf kn kt ko kd) (.mk vf vn vt vo vd), h => by
    have h1 : kf ∉ sel := h kf (by simp [preIdsType, preIdsField])
    have h2 : vf ∉ sel := h vf (by simp [preIdsType, preIdsField])
    have h3 : ∀ j ∈ preIdsType kt, j ∉ sel := by
      intro j hj
      refine h j ?_
      simp [preIdsType, preIdsField]
      tauto
    have h4 : ∀ j ∈ preIdsType vt, j ∉ sel := by
      intro j hj
      refine h j ?_
      simp [preIdsType, preIdsField]
      tauto
    rw [pruneType]
    simp [pruneType_disjoint sel sft kt h3, pruneType_disjoint sel sft vt h4,
      h1, h2]

theorem pruneStructChildren_disjoint (sel : List Int) (sft : Bool) : ∀ fs : FieldList,
    (∀ j ∈ preIdsFields fs, j ∉ sel) →
    pruneStructChildren sel sft fs = .ok (childrenNone fs)
  | .nil, _ => rfl
  | .cons (.mk fid fname t fopt fdoc) fs, h => by
    have h1 : fid ∉ sel := h fid (by simp [preIdsFields, preIdsField])
    have h2 : ∀ j ∈ preIdsType t, j ∉ sel := by
      intro j hj
      refine h j ?_
      simp [preIdsFields, preIdsField]
      tauto
    have h3 : ∀ j ∈ preIdsFields fs, j ∉ sel := by
      intro j hj
      refine h j ?_
      simp [preIdsFields, preIdsField]
      tauto
    rw [pruneStructChildren]
    simp [pruneType_disjoint sel sft t h2, h1, pruneFieldStep,
      pruneStructChildren_disjoint sel sft fs h3, childrenNone]
end

/- Pruning a struct-only subtree with every id selected (Project mode)
keeps it whole. -/
mutual
theorem pruneType_structOnly_all (sel : List Int) : ∀ t : IType,
    structOnlyT t = true → (∀ j ∈ preIdsType t, j ∈ sel) →
    pruneType sel false t = .ok (pruneAllRes t)
  | .primitive _, _, _ => rfl
  | .structT fs, hso, hall => by
    have hc := pruneStructChildren_structOnly_all sel fs
      (by rw [structOnlyT] at hso; exact hso)
      (by intro j hj; exact hall j (by rw [preIdsType]; exact hj))
    rw [pruneType, hc]
    cases fs with
    | nil => rfl
    | cons f gs => simp [assembleStruct_childrenSelf_cons, pruneAllRes]
  | .listT e, hso, _ => by
    rw [structOnlyT] at hso
    exact absurd hso (by simp)
  | .mapT k v, hso, _ => by
    rw [structOnlyT] at hso
    exact absurd hso (by simp)

theorem pruneStructChildren_structOnly_all (sel : List Int) : ∀ fs : FieldList,
    structOnlyFields fs = true → (∀ j ∈ preIdsFields fs, j ∈ sel) →
    pruneStructChildren sel false fs = .ok (childrenSelf fs)
  | .nil, _, _ => rfl
  | .cons (.mk fid fname t fopt fdoc) fs, hso, hall => by
    rw [structOnlyFields, structOnlyField] at hso
    have hso' := hso
    simp only [Bool.and_eq_true] at hso'
    have hso1 : structOnlyT t = true := hso'.1
    have hso2 : structOnlyFields fs = true := hso'.2
    have h1 : fid ∈ sel := hall fid (by simp [preIdsFields, preIdsField])
    have h2 : ∀ j ∈ preIdsType t, j ∈ sel := by
      intro j hj
      refine hall j ?_
      simp [preIdsFields, preIdsField]
      tauto
    have h3 : ∀ j ∈ preIdsFields fs, j ∈ sel := by
      intro j hj
      refine hall j ?_
      simp [preIdsFields, preIdsField]
      tauto
    have hchild := pruneType_structOnly_all sel t hso1 h2
    have hrest := pruneStructChildren_structOnly_all sel fs hso2 h3
    rw [pruneStructChildren, hchild]
    cases t with
    | primitive p =>
      simp [h1, isStructT, isPrimitiveT, pruneAllRes, hrest, childrenSelf,
        SField.ftype, pruneFieldStep]
    | structT gs =>
      cases gs with
      | nil =>
        simp [h1, isStructT, pruneAllRes, hrest, childrenSelf, SField.ftype,
          pruneFieldStep]
      | cons g gs2 =>
        simp [h1, isStructT, pruneAllRes, hrest, childrenSelf, SField.ftype,
          pruneFieldStep]
    | listT e =>
      rw [structOnlyT] at hso1
      exact absurd hso1 (by simp)
    | mapT k v =>
      rw [structOnlyT] at hso1
      exact absurd hso1 (by simp)
end

/-! ## Claim C3 (amended) -/

/-- Claim C3 (amended): for every schema whose nested closure contains no
list or map container (structs and primitives only), projecting the set of
all field ids of the nested closure succeeds and reproduces the schema.
(For schemas containing a list or map field the original claim fails: see
the counterexample — selecting such a field's own id makes Project return
`InvalidArgument`.) -/
theorem c3_project_all_ids_reproduces_struct_only (s : Schema)
    (h : structOnlyFields s.fields = true) :
    project s (preIds s) = .ok s := by
  obtain ⟨fields, sid⟩ := s
  have hc := pruneStructChildren_structOnly_all (preIdsFields fields) fields h
    (fun j hj => hj)
  have hps : pruneStructT (preIdsFields fields) false fields =
      .ok (assembleStruct fields (childrenSelf fields)) := by
    rw [pruneStructT, hc]
  cases fields with
  | nil => rfl
  | cons f fs =>
    simp only [project, preIds, hps, assembleStruct_childrenSelf_cons]

/-- Witness for the amended C3: the struct-only nested user schema is
reproduced by projecting all of its ids. -/
theorem c3_project_all_ids_reproduces_struct_only_witness :
    structOnlyFields nestedUserSchema.fields = true ∧
    project nestedUserSchema (preIds nestedUserSchema) = .ok nestedUserSchema :=
  ⟨by decide, c3_project_all_ids_reproduces_struct_only nestedUserSchema (by decide)⟩

/-! ## Select-mode never fails (for C8) -/

theorem projectListStep_some (e : SField) (c : IType) :
    ∃ r, projectListStep e (some c) = .ok r := by
  rw [projectListStep]
  split
  · exact ⟨_, rfl⟩
  · exact ⟨_, rfl⟩

theorem projectMapStep_some (k v : SField) (c : IType) :
    ∃ r, projectMapStep k v (some c) = .ok r := by
  rw [projectMapStep]
  split
  · exact ⟨_, rfl⟩
  · exact ⟨_, rfl⟩

mutual
theorem pruneType_sft_ok (sel : List Int) : ∀ t : IType,
    ∃ r, pruneType sel true t = .ok r
  | .primitive _ => ⟨none, rfl⟩
  | .structT fs => by
    obtain ⟨ps, hps⟩ := pruneStructChildren_sft_ok sel fs
    exact ⟨assembleStruct fs ps, by rw [pruneType, hps]⟩
  | .listT (.mk fid fname t fopt fdoc) => by
    rw [pruneType]
    cases hc : sel.contains fid with
    | true => exact ⟨some (.listT (.mk fid fname t fopt fdoc)), by simp [hc]⟩
    | false =>
      obtain ⟨r, hr⟩ := pruneType_sft_ok sel t
      cases r with
      | none => exact ⟨none, by simp [hc, hr]⟩
      | some c =>
        obtain ⟨r2, hr2⟩ := projectListStep_some (.mk fid fname t fopt fdoc) c
        exact ⟨r2, by simp [hc, hr, hr2]⟩
  | .mapT (.mk kf kn kt ko kd) (.mk vf vn vt vo vd) => by
    rw [pruneType]
    cases hv : sel.contains vf with
    | true =>
      exact ⟨some (.mapT (.mk kf kn kt ko kd) (.mk vf vn vt vo vd)),
        by simp [hv]⟩
    | false =>
      obtain ⟨rk, hrk⟩ := pruneType_sft_ok sel kt
      obtain ⟨rv, hrv⟩ := pruneType_sft_ok sel vt
      cases rv with
      | some c =>
        obtain ⟨r2, hr2⟩ := projectMapStep_some (.mk kf kn kt ko kd)
          (.mk vf vn vt vo vd) c
        exact ⟨r2, by simp [hv, hrk, hrv, hr2]⟩
      | none =>
        cases hk : sel.contains kf with
        | true =>
          exact ⟨some (.mapT (.mk kf kn kt ko kd) (.mk vf vn vt vo vd)),
            by simp [hv, hrk, hrv, hk]⟩
        | false => exact ⟨none, by simp [hv, hrk, hrv, hk]⟩

theorem pruneStructChildren_sft_ok (sel : List Int) : ∀ fs : FieldList,
    ∃ ps, pruneStructChildren sel true fs = .ok ps
  | .nil => ⟨[], rfl⟩
  | .cons (.mk fid fname t fopt fdoc) fs => by
    obtain ⟨r, hr⟩ := pruneType_sft_ok sel t
    obtain ⟨ps, hps⟩ := pruneStructChildren_sft_ok sel fs
    rw [pruneStructChildren]
    cases hc : sel.contains fid with
    | true =>
      exact ⟨(SField.mk fid fname t fopt fdoc, some t) :: ps,
        by simp [hr, hc, hps, pruneFieldStep, contains_true_iff.mp hc]⟩
    | false =>
      exact ⟨(SField.mk fid fname t fopt fdoc, r) :: ps,
        by simp [hr, hc, hps, pruneFieldStep, contains_false_iff.mp hc]⟩
end

theorem assembleStruct_shape (fs : FieldList) (ps : List (SField × Option IType)) :
    assembleStruct fs ps = none ∨ ∃ gs, assembleStruct fs ps = some (.structT gs) := by
  rw [assembleStruct]
  split
  · exact Or.inl rfl
  · split
    · exact Or.inr ⟨_, rfl⟩
    · exact Or.inr ⟨_, rfl⟩

theorem findFieldById_ok (s : Schema) (i : Int)
    (hid : (idVisitFields [] s.fields).2 = none) :
    findFieldById s i = .ok (lookupId (idVisitFields [] s.fields).1 i) := by
  rcases hb : idVisitFields [] s.fields with ⟨m, e?⟩
  rw [hb] at hid
  cases e? with
  | some e => exact absurd hid (by simp)
  | none => simp [findFieldById, findFieldByIdSt, initIdToFieldMap, hb]

theorem findFieldByName_ok (s : Schema) (nm : String) (cs : Bool)
    (hn : (buildNameToId cs s).2 = none)
    (hid : (idVisitFields [] s.fields).2 = none) :
    ∃ r, findFieldByName s nm cs = .ok r := by
  rw [findFieldByName]
  rcases hb : buildNameToId cs s with ⟨acc, e?⟩
  rw [hb] at hn
  cases e? with
  | some e => exact absurd hn (by simp)
  | none =>
    cases hl : lookupS (finishMerge acc) (if cs then nm else toLowerStr nm) with
    | none => exact ⟨none, by simp [hl]⟩
    | some fid =>
      exact ⟨_, by simp only [hl]; exact findFieldById_ok s fid hid⟩

theorem resolveSelectedIds_ok (s : Schema) (cs : Bool)
    (hn : (buildNameToId cs s).2 = none)
    (hid : (idVisitFields [] s.fields).2 = none) :
    ∀ (names : List String) (acc : List Int),
      ∃ ids, resolveSelectedIds s cs names acc = .ok ids
  | [], acc => ⟨acc, rfl⟩
  | nm :: rest, acc => by
    obtain ⟨r, hr⟩ := findFieldByName_ok s nm cs hn hid
    cases r with
    | none =>
      obtain ⟨ids, hi⟩ := resolveSelectedIds_ok s cs hn hid rest acc
      exact ⟨ids, by rw [resolveSelectedIds, hr]; exact hi⟩
    | some f =>
      obtain ⟨ids, hi⟩ := resolveSelectedIds_ok s cs hn hid rest (acc ++ [f.fid])
      exact ⟨ids, by rw [resolveSelectedIds, hr]; exact hi⟩

/-! ## Claim C8 -/

/-- Claim C8: `Select` with a name list containing the wildcard "*"
returns the schema itself (structurally equal, same schema id and
fields); and for a well-formed schema (both index builds succeed) any
name list — including names that resolve to nothing, which are skipped —
selects successfully, never erroring. -/
theorem c8_select_wildcard_identity_and_skip (s : Schema)
    (names : List String) (cs : Bool) :
    (names.contains ("*") = true → internalSelect s names cs = .ok s) ∧
    ((buildNameToId cs s).2 = none → (idVisitFields [] s.fields).2 = none →
      ∃ s2, internalSelect s names cs = .ok s2) := by
  constructor
  · intro h
    rw [internalSelect, if_pos h]
  · intro hn hid
    rw [internalSelect]
    by_cases hw : names.contains ("*") = true
    · rw [if_pos hw]
      exact ⟨s, rfl⟩
    · rw [if_neg hw]
      obtain ⟨ids, hi⟩ := resolveSelectedIds_ok s cs hn hid names []
      obtain ⟨ps, hps⟩ := pruneStructChildren_sft_ok ids s.fields
      have hp : pruneStructT ids true s.fields =
          .ok (assembleStruct s.fields ps) := by
        rw [pruneStructT, hps]
      rcases assembleStruct_shape s.fields ps with hsh | ⟨gs, hsh⟩
      · exact ⟨⟨.nil, s.schemaId⟩, by simp only [hi, hp, hsh]⟩
      · exact ⟨⟨gs, s.schemaId⟩, by simp only [hi, hp, hsh]⟩

/-- Witness for C8: the wildcard returns the map schema itself, and a
non-resolving name list yields the empty schema rather than an error. -/
theorem c8_select_wildcard_identity_and_skip_witness :
    (([("*")] : List String).contains ("*") = true) ∧
    internalSelect mapFieldSchema [("*")] true = .ok mapFieldSchema ∧
    ((buildNameToId true mapFieldSchema).2 = none) ∧
    ((idVisitFields [] mapFieldSchema.fields).2 = none) ∧
    ∃ s2, internalSelect mapFieldSchema [("nonexistent")] true = .ok s2 := by
  refine ⟨by decide, ?_, by decide, by decide, ?_⟩
  · exact (c8_select_wildcard_identity_and_skip mapFieldSchema [("*")] true).1
      (by decide)
  · exact (c8_select_wildcard_identity_and_skip mapFieldSchema
      [("nonexistent")] true).2 (by decide) (by decide)

/-! ## NameToIdVisitor lemmas (for C5) -/

/- A successful name walk appends exactly the canonical bindings of the
subtree to the canonical map (the short prefix never influences the
canonical map during the walk). -/
mutual
theorem nameVisitType_ok : ∀ (t : IType) (cs : Bool) (acc : NameAcc)
    (p sp : String) (acc2 : NameAcc),
    nameVisitType cs acc p sp t = (acc2, none) →
    acc2.nameToId = acc.nameToId ++ canonBindingsType cs p t
  | .primitive _, cs, acc, p, sp, acc2, h => by
    have h2 : (acc, (none : Option IError)) = (acc2, none) := h
    injection h2 with h1 _
    rw [← h1, canonBindingsType]
    simp
  | .structT fs, cs, acc, p, sp, acc2, h => by
    rw [canonBindingsType]
    exact nameVisitStructFields_ok fs cs acc p sp acc2 h
  | .listT (.mk fid fname t o d), cs, acc, p, sp, acc2, h => by
    rw [canonBindingsType, canonBindingsField]
    simp only [nameVisitType] at h
    rcases hl : lookupS acc.nameToId (buildPath p fname cs) with _ | prevId
    · rw [hl] at h
      have h1 := nameVisitType_ok t cs _ _ _ acc2 h
      rw [h1]
      simp
    · rw [hl] at h
      have h2 : (acc, some (⟨.invalidSchema,
          dupPathMsg (buildPath p fname cs) prevId fid⟩ : IError)) = (acc2, none) := h
      injection h2 with _ hno
      exact Option.noConfusion hno
  | .mapT k v, cs, acc, p, sp, acc2, h => by
    rw [canonBindingsType]
    simp only [nameVisitType] at h
    rcases hk : nameVisitMapField cs acc p sp k with ⟨acck, e?⟩
    cases e? with
    | none =>
      rw [hk] at h
      have h1 := nameVisitMapField_ok k cs acc p sp acck hk
      have h2 := nameVisitMapField_ok v cs acck p sp acc2 h
      rw [h2, h1, List.append_assoc]
    | some e0 =>
      rw [hk] at h
      have h2 : (acck, some e0) = (acc2, none) := h
      injection h2 with _ hno
      exact Option.noConfusion hno

theorem nameVisitMapField_ok : ∀ (f : SField) (cs : Bool) (acc : NameAcc)
    (p sp : String) (acc2 : NameAcc),
    nameVisitMapField cs acc p sp f = (acc2, none) →
    acc2.nameToId = acc.nameToId ++ canonBindingsField cs p f
  | .mk fid fname t o d, cs, acc, p, sp, acc2, h => by
    rw [canonBindingsField]
    simp only [nameVisitMapField] at h
    rcases hl : lookupS acc.nameToId (buildPath p fname cs) with _ | prevId
    · rw [hl] at h
      have h1 := nameVisitType_ok t cs _ _ _ acc2 h
      rw [h1]
      simp
    · rw [hl] at h
      have h2 : (acc, some (⟨.invalidSchema,
          dupPathMsg (buildPath p fname cs) prevId fid⟩ : IError)) = (acc2, none) := h
      injection h2 with _ hno
      exact Option.noConfusion hno

theorem nameVisitStructField_ok : ∀ (f : SField) (cs : Bool) (acc : NameAcc)
    (p sp : String) (acc2 : NameAcc),
    nameVisitStructField cs acc p sp f = (acc2, none) →
    acc2.nameToId = acc.nameToId ++ canonBindingsField cs p f
  | .mk fid fname t o d, cs, acc, p, sp, acc2, h => by
    rw [canonBindingsField]
    simp only [nameVisitStructField] at h
    rcases hl : lookupS acc.nameToId (buildPath p fname cs) with _ | prevId
    · rw [hl] at h
      have h1 := nameVisitType_ok t cs _ _ _ acc2 h
      rw [h1]
      simp
    · rw [hl] at h
      have h2 : (acc, some (⟨.invalidSchema,
          dupPathMsg (buildPath p fname cs) prevId fid⟩ : IError)) = (acc2, none) := h
      injection h2 with _ hno
      exact Option.noConfusion hno

theorem nameVisitStructFields_ok : ∀ (fs : FieldList) (cs : Bool) (acc : NameAcc)
    (p sp : String) (acc2 : NameAcc),
    nameVisitStructFields cs acc p sp fs = (acc2, none) →
    acc2.nameToId = acc.nameToId ++ canonBindingsFields cs p fs
  | .nil, cs, acc, p, sp, acc2, h => by
    have h2 : (acc, (none : Option IError)) = (acc2, none) := h
    injection h2 with h1 _
    rw [← h1, canonBindingsFields]
    simp
  | .cons f fs, cs, acc, p, sp, acc2, h => by
    rw [canonBindingsFields]
    simp only [nameVisitStructFields] at h
    rcases hf : nameVisitStructField cs acc p sp f with ⟨accf, e?⟩
    cases e? with
    | none =>
      rw [hf] at h
      have h1 := nameVisitStructField_ok f cs acc p sp accf hf
      have h2 := nameVisitStructFields_ok fs cs accf p sp acc2 h
      rw [h2, h1, List.append_assoc]
    | some e0 =>
      rw [hf] at h
      have h2 : (accf, some e0) = (acc2, none) := h
      injection h2 with _ hno
      exact Option.noConfusion hno
end

/- A successful name walk keeps the canonical path column duplicate-free. -/
mutual
theorem nameVisitType_nodup : ∀ (t : IType) (cs : Bool) (acc : NameAcc)
    (p sp : String) (acc2 : NameAcc),
    nameVisitType cs acc p sp t = (acc2, none) →
    (acc.nameToId.map Prod.fst).Nodup → (acc2.nameToId.map Prod.fst).Nodup
  | .primitive _, cs, acc, p, sp, acc2, h, hnd => by
    have h2 : (acc, (none : Option IError)) = (acc2, none) := h
    injection h2 with h1 _
    rw [← h1]
    exact hnd
  | .structT fs, cs, acc, p, sp, acc2, h, hnd =>
    nameVisitStructFields_nodup fs cs acc p sp acc2 h hnd
  | .listT (.mk fid fname t o d), cs, acc, p, sp, acc2, h, hnd => by
    simp only [nameVisitType] at h
    rcases hl : lookupS acc.nameToId (buildPath p fname cs) with _ | prevId
    · rw [hl] at h
      refine nameVisitType_nodup t cs _ _ _ acc2 h ?_
      simp only [List.map_append]
      refine List.nodup_append.mpr ⟨hnd, by simp, ?_⟩
      intro a ha hb
      simp at hb
      subst hb
      exact lookupS_eq_none.mp hl ha
    · rw [hl] at h
      have h2 : (acc, some (⟨.invalidSchema,
          dupPathMsg (buildPath p fname cs) prevId fid⟩ : IError)) = (acc2, none) := h
      injection h2 with _ hno
      exact Option.noConfusion hno
  | .mapT k v, cs, acc, p, sp, acc2, h, hnd => by
    simp only [nameVisitType] at h
    rcases hk : nameVisitMapField cs acc p sp k with ⟨acck, e?⟩
    cases e? with
    | none =>
      rw [hk] at h
      exact nameVisitMapField_nodup v cs acck p sp acc2 h
        (nameVisitMapField_nodup k cs acc p sp acck hk hnd)
    | some e0 =>
      rw [hk] at h
      have h2 : (acck, some e0) = (acc2, none) := h
      injection h2 with _ hno
      exact Option.noConfusion hno

theorem nameVisitMapField_nodup : ∀ (f : SField) (cs : Bool) (acc : NameAcc)
    (p sp : String) (acc2 : NameAcc),
    nameVisitMapField cs acc p sp f = (acc2, none) →
    (acc.nameToId.map Prod.fst).Nodup → (acc2.nameToId.map Prod.fst).Nodup
  | .mk fid fname t o d, cs, acc, p, sp, acc2, h, hnd => by
    simp only [nameVisitMapField] at h
    rcases hl : lookupS acc.nameToId (buildPath p fname cs) with _ | prevId
    · rw [hl] at h
      refine nameVisitType_nodup t cs _ _ _ acc2 h ?_
      simp only [List.map_append]
      refine List.nodup_append.mpr ⟨hnd, by simp, ?_⟩
      intro a ha hb
      simp at hb
      subst hb
      exact lookupS_eq_none.mp hl ha
    · rw [hl] at h
      have h2 : (acc, some (⟨.invalidSchema,
          dupPathMsg (buildPath p fname cs) prevId fid⟩ : IError)) = (acc2, none) := h
      injection h2 with _ hno
      exact Option.noConfusion hno

theorem nameVisitStructField_nodup : ∀ (f : SField) (cs : Bool) (acc : NameAcc)
    (p sp : String) (acc2 : NameAcc),
    nameVisitStructField cs acc p sp f = (acc2, none) →
    (acc.nameToId.map Prod.fst).Nodup → (acc2.nameToId.map Prod.fst).Nodup
  | .mk fid fname t o d, cs, acc, p, sp, acc2, h, hnd => by
    simp only [nameVisitStructField] at h
    rcases hl : lookupS acc.nameToId (buildPath p fname cs) with _ | prevId
    · rw [hl] at h
      refine nameVisitType_nodup t cs _ _ _ acc2 h ?_
      simp only [List.map_append]
      refine List.nodup_append.mpr ⟨hnd, by simp, ?_⟩
      intro a ha hb
      simp at hb
      subst hb
      exact lookupS_eq_none.mp hl ha
    · rw [hl] at h
      have h2 : (acc, some (⟨.invalidSchema,
          dupPathMsg (buildPath p fname cs) prevId fid⟩ : IError)) = (acc2, none) := h
      injection h2 with _ hno
      exact Option.noConfusion hno

theorem nameVisitStructFields_nodup : ∀ (fs : FieldList) (cs : Bool) (acc : NameAcc)
    (p sp : String) (acc2 : NameAcc),
    nameVisitStructFields cs acc p sp fs = (acc2, none) →
    (acc.nameToId.map Prod.fst).Nodup → (acc2.nameToId.map Prod.fst).Nodup
  | .nil, cs, acc, p, sp, acc2, h, hnd => by
    have h2 : (acc, (none : Option IError)) = (acc2, none) := h
    injection h2 with h1 _
    rw [← h1]
    exact hnd
  | .cons f fs, cs, acc, p, sp, acc2, h, hnd => by
    simp only [nameVisitStructFields] at h
    rcases hf : nameVisitStructField cs acc p sp f with ⟨accf, e?⟩
    cases e? with
    | none =>
      rw [hf] at h
      exact nameVisitStructFields_nodup fs cs accf p sp acc2 h
        (nameVisitStructField_nodup f cs acc p sp accf hf hnd)
    | some e0 =>
      rw [hf] at h
      have h2 : (accf, some e0) = (acc2, none) := h
      injection h2 with _ hno
      exact Option.noConfusion hno
end

/- A failing name walk reports a duplicate-path error whose path and both
ids are genuine canonical bindings. -/
mutual
theorem nameVisitType_err : ∀ (t : IType) (cs : Bool) (acc : NameAcc)
    (p sp : String) (acc2 : NameAcc) (e : IError),
    nameVisitType cs acc p sp t = (acc2, some e) →
    ∃ q i1 i2, e = ⟨.invalidSchema, dupPathMsg q i1 i2⟩ ∧
      (q, i1) ∈ acc.nameToId ++ canonBindingsType cs p t ∧
      (q, i2) ∈ canonBindingsType cs p t
  | .primitive _, cs, acc, p, sp, acc2, e, h => by
    have h2 : (acc, (none : Option IError)) = (acc2, some e) := h
    injection h2 with _ hno
    exact Option.noConfusion hno
  | .structT fs, cs, acc, p, sp, acc2, e, h => by
    rw [canonBindingsType]
    exact nameVisitStructFields_err fs cs acc p sp acc2 e h
  | .listT (.mk fid fname t o d), cs, acc, p, sp, acc2, e, h => by
    rw [canonBindingsType, canonBindingsField]
    simp only [nameVisitType] at h
    rcases hl : lookupS acc.nameToId (buildPath p fname cs) with _ | prevId
    · rw [hl] at h
      obtain ⟨q, i1, i2, he, h1, h2⟩ := nameVisitType_err t cs _ _ _ acc2 e h
      have h1x : (q, i1) ∈ (acc.nameToId ++ [(buildPath p fname cs, fid)]) ++
          canonBindingsType cs (buildPath p fname cs) t := h1
      refine ⟨q, i1, i2, he, ?_, List.mem_cons_of_mem _ h2⟩
      rcases List.mem_append.mp h1x with h3 | h3
      · rcases List.mem_append.mp h3 with h4 | h4
        · exact List.mem_append_left _ h4
        · have h4x : (q, i1) = (buildPath p fname cs, fid) := by
            simpa using h4
          rw [h4x]
          exact List.mem_append_right _ (List.mem_cons_self _ _)
      · exact List.mem_append_right _ (List.mem_cons_of_mem _ h3)
    · rw [hl] at h
      have h2 : (acc, some (⟨.invalidSchema,
          dupPathMsg (buildPath p fname cs) prevId fid⟩ : IError)) = (acc2, some e) := h
      injection h2 with _ he
      injection he with he2
      refine ⟨buildPath p fname cs, prevId, fid, he2.symm, ?_, ?_⟩
      · exact List.mem_append_left _ (lookupS_mem hl)
      · exact List.mem_cons_self _ _
  | .mapT k v, cs, acc, p, sp, acc2, e, h => by
    rw [canonBindingsType]
    simp only [nameVisitType] at h
    rcases hk : nameVisitMapField cs acc p sp k with ⟨acck, e?⟩
    cases e? with
    | none =>
      rw [hk] at h
      have hkeys := nameVisitMapField_ok k cs acc p sp acck hk
      obtain ⟨q, i1, i2, he, h1, h2⟩ := nameVisitMapField_err v cs acck p sp acc2 e h
      rw [hkeys, List.append_assoc] at h1
      exact ⟨q, i1, i2, he, h1, List.mem_append_right _ h2⟩
    | some e0 =>
      rw [hk] at h
      have h2 : (acck, some e0) = (acc2, some e) := h
      injection h2 with _ he
      injection he with he2
      obtain ⟨q, i1, i2, he0, h1, h2⟩ := nameVisitMapField_err k cs acc p sp acck e0 hk
      refine ⟨q, i1, i2, he2 ▸ he0, ?_, List.mem_append_left _ h2⟩
      rcases List.mem_append.mp h1 with h3 | h3
      · exact List.mem_append_left _ h3
      · exact List.mem_append_right _ (List.mem_append_left _ h3)

theorem nameVisitMapField_err : ∀ (f : SField) (cs : Bool) (acc : NameAcc)
    (p sp : String) (acc2 : NameAcc) (e : IError),
    nameVisitMapField cs acc p sp f = (acc2, some e) →
    ∃ q i1 i2, e = ⟨.invalidSchema, dupPathMsg q i1 i2⟩ ∧
      (q, i1) ∈ acc.nameToId ++ canonBindingsField cs p f ∧
      (q, i2) ∈ canonBindingsField cs p f
  | .mk fid fname t o d, cs, acc, p, sp, acc2, e, h => by
    rw [canonBindingsField]
    simp only [nameVisitMapField] at h
    rcases hl : lookupS acc.nameToId (buildPath p fname cs) with _ | prevId
    · rw [hl] at h
      obtain ⟨q, i1, i2, he, h1, h2⟩ := nameVisitType_err t cs _ _ _ acc2 e h
      have h1x : (q, i1) ∈ (acc.nameToId ++ [(buildPath p fname cs, fid)]) ++
          canonBindingsType cs (buildPath p fname cs) t := h1
      refine ⟨q, i1, i2, he, ?_, List.mem_cons_of_mem _ h2⟩
      rcases List.mem_append.mp h1x with h3 | h3
      · rcases List.mem_append.mp h3 with h4 | h4
        · exact List.mem_append_left _ h4
        · have h4x : (q, i1) = (buildPath p fname cs, fid) := by
            simpa using h4
          rw [h4x]
          exact List.mem_append_right _ (List.mem_cons_self _ _)
      · exact List.mem_append_right _ (List.mem_cons_of_mem _ h3)
    · rw [hl] at h
      have h2 : (acc, some (⟨.invalidSchema,
          dupPathMsg (buildPath p fname cs) prevId fid⟩ : IError)) = (acc2, some e) := h
      injection h2 with _ he
      injection he with he2
      refine ⟨buildPath p fname cs, prevId, fid, he2.symm, ?_, ?_⟩
      · exact List.mem_append_left _ (lookupS_mem hl)
      · exact List.mem_cons_self _ _

theorem nameVisitStructField_err : ∀ (f : SField) (cs : Bool) (acc : NameAcc)
    (p sp : String) (acc2 : NameAcc) (e : IError),
    nameVisitStructField cs acc p sp f = (acc2, some e) →
    ∃ q i1 i2, e = ⟨.invalidSchema, dupPathMsg q i1 i2⟩ ∧
      (q, i1) ∈ acc.nameToId ++ canonBindingsField cs p f ∧
      (q, i2) ∈ canonBindingsField cs p f
  | .mk fid fname t o d, cs, acc, p, sp, acc2, e, h => by
    rw [canonBindingsField]
    simp only [nameVisitStructField] at h
    rcases hl : lookupS acc.nameToId (buildPath p fname cs) with _ | prevId
    · rw [hl] at h
      obtain ⟨q, i1, i2, he, h1, h2⟩ := nameVisitType_err t cs _ _ _ acc2 e h
      have h1x : (q, i1) ∈ (acc.nameToId ++ [(buildPath p fname cs, fid)]) ++
          canonBindingsType cs (buildPath p fname cs) t := h1
      refine ⟨q, i1, i2, he, ?_, List.mem_cons_of_mem _ h2⟩
      rcases List.mem_append.mp h1x with h3 | h3
      · rcases List.mem_append.mp h3 with h4 | h4
        · exact List.mem_append_left _ h4
        · have h4x : (q, i1) = (buildPath p fname cs, fid) := by
            simpa using h4
          rw [h4x]
          exact List.mem_append_right _ (List.mem_cons_self _ _)
      · exact List.mem_append_right _ (List.mem_cons_of_mem _ h3)
    · rw [hl] at h
      have h2 : (acc, some (⟨.invalidSchema,
          dupPathMsg (buildPath p fname cs) prevId fid⟩ : IError)) = (acc2, some e) := h
      injection h2 with _ he
      injection he with he2
      refine ⟨buildPath p fname cs, prevId, fid, he2.symm, ?_, ?_⟩
      · exact List.mem_append_left _ (lookupS_mem hl)
      · exact List.mem_cons_self _ _

theorem nameVisitStructFields_err : ∀ (fs : FieldList) (cs : Bool) (acc : NameAcc)
    (p sp : String) (acc2 : NameAcc) (e : IError),
    nameVisitStructFields cs acc p sp fs = (acc2, some e) →
    ∃ q i1 i2, e = ⟨.invalidSchema, dupPathMsg q i1 i2⟩ ∧
      (q, i1) ∈ acc.nameToId ++ canonBindingsFields cs p fs ∧
      (q, i2) ∈ canonBindingsFields cs p fs
  | .nil, cs, acc, p, sp, acc2, e, h => by
    have h2 : (acc, (none : Option IError)) = (acc2, some e) := h
    injection h2 with _ hno
    exact Option.noConfusion hno
  | .cons f fs, cs, acc, p, sp, acc2, e, h => by
    rw [canonBindingsFields]
    simp only [nameVisitStructFields] at h
    rcases hf : nameVisitStructField cs acc p sp f with ⟨accf, e?⟩
    cases e? with
    | none =>
      rw [hf] at h
      have hkeys := nameVisitStructField_ok f cs acc p sp accf hf
      obtain ⟨q, i1, i2, he, h1, h2⟩ := nameVisitStructFields_err fs cs accf p sp acc2 e h
      rw [hkeys, List.append_assoc] at h1
      exact ⟨q, i1, i2, he, h1, List.mem_append_right _ h2⟩
    | some e0 =>
      rw [hf] at h
      have h2 : (accf, some e0) = (acc2, some e) := h
      injection h2 with _ he
      injection he with he2
      obtain ⟨q, i1, i2, he0, h1, h2⟩ := nameVisitStructField_err f cs acc p sp accf e0 hf
      refine ⟨q, i1, i2, he2 ▸ he0, ?_, List.mem_append_left _ h2⟩
      rcases List.mem_append.mp h1 with h3 | h3
      · exact List.mem_append_left _ h3
      · exact List.mem_append_right _ (List.mem_append_left _ h3)
end

/-! ## Claim C5 -/

/-- Claim C5: on a schema in which two different field ids map to the same
canonical dotted path, every case-sensitive `FindFieldByName` lookup
returns an `InvalidSchema` error whose message names a colliding canonical
path and the two field ids bound to it. -/
theorem c5_duplicate_path_invalid_schema (s : Schema) (q : String)
    (h : ∃ p i1 i2, (p, i1) ∈ canonBindings s ∧ (p, i2) ∈ canonBindings s ∧
      i1 ≠ i2) :
    ∃ e, findFieldByName s q true = .error e ∧ e.kind = .invalidSchema ∧
      ∃ p j1 j2, e.msg = dupPathMsg p j1 j2 ∧
        (p, j1) ∈ canonBindings s ∧ (p, j2) ∈ canonBindings s := by
  obtain ⟨p, i1, i2, h1, h2, hne⟩ := h
  rcases hb : buildNameToId true s with ⟨acc, e?⟩
  cases e? with
  | none =>
    exfalso
    have hkeys := nameVisitStructFields_ok s.fields true ⟨[], []⟩ "" "" acc hb
    have hnd := nameVisitStructFields_nodup s.fields true ⟨[], []⟩ "" "" acc hb
      (by simp)
    rw [hkeys] at hnd
    simp only [List.nil_append] at hnd
    exact hne (nodup_fst_inj hnd h1 h2)
  | some e =>
    obtain ⟨p', j1, j2, he, hj1, hj2⟩ :=
      nameVisitStructFields_err s.fields true ⟨[], []⟩ "" "" acc e hb
    simp only [List.nil_append] at hj1
    refine ⟨e, ?_, ?_, p', j1, j2, ?_, hj1, hj2⟩
    · simp [findFieldByName, hb]
    · rw [he]
    · rw [he]

/-- Witness for C5: the duplicate-path schema (field "a" with child "b"
plus a sibling literally named "a.b") makes `FindFieldByName("a.b")`
return the `InvalidSchema` duplicate-path error. -/
theorem c5_duplicate_path_invalid_schema_witness :
    (∃ p i1 i2, (p, i1) ∈ canonBindings dupPathSchema ∧
      (p, i2) ∈ canonBindings dupPathSchema ∧ i1 ≠ i2) ∧
    ∃ e, findFieldByName dupPathSchema ("a.b") true = .error e ∧
      e.kind = .invalidSchema ∧
      ∃ p j1 j2, e.msg = dupPathMsg p j1 j2 ∧
        (p, j1) ∈ canonBindings dupPathSchema ∧
        (p, j2) ∈ canonBindings dupPathSchema := by
  refine ⟨⟨("a.b"), 2, 3, by decide, by decide, by decide⟩, ?_⟩
  exact c5_duplicate_path_invalid_schema dupPathSchema ("a.b")
    ⟨("a.b"), 2, 3, by decide, by decide, by decide⟩

/-! ## Claim C6 (amended) -/

set_option maxHeartbeats 4000000 in
/-- Claim C6 (amended): in the parametric list/map families — where no
other binding interferes with the short names — short-name resolution
behaves as claimed, for every choice of field ids and schema id:
"l.element.x" and "l.x" resolve identically (the merged name map binds
"l.x" to x's id); "m.value.x" and "m.x" resolve identically (to the
value-side x), while the key side never shortens: "m.key.x" binds the
key's child and "m.x" binds the value-side x even though the key also has
a child named "x"; with a primitive map value, "m.x" resolves to nothing
at all.  (When another field's canonical path equals the short name, the
canonical binding wins and the two paths resolve differently: see the
counterexample.) -/
theorem c6_short_name_resolution_families
    (lid eid xid mid kid kxid vid vxid : Int) (sid sid2 : Option Int) :
    (findFieldByName (c6Schema lid eid xid mid kid kxid vid vxid sid)
        ("l.element.x") true =
      findFieldByName (c6Schema lid eid xid mid kid kxid vid vxid sid)
        ("l.x") true) ∧
    (lookupS (finishMerge (buildNameToId true
        (c6Schema lid eid xid mid kid kxid vid vxid sid)).1) ("l.x") =
      some xid) ∧
    (findFieldByName (c6Schema lid eid xid mid kid kxid vid vxid sid)
        ("m.value.x") true =
      findFieldByName (c6Schema lid eid xid mid kid kxid vid vxid sid)
        ("m.x") true) ∧
    (lookupS (finishMerge (buildNameToId true
        (c6Schema lid eid xid mid kid kxid vid vxid sid)).1) ("m.x") =
      some vxid) ∧
    (lookupS (finishMerge (buildNameToId true
        (c6Schema lid eid xid mid kid kxid vid vxid sid)).1) ("m.key.x") =
      some kxid) ∧
    (findFieldByName (c6KeySchema mid kid kxid vid sid2) ("m.x") true =
      .ok none) ∧
    (findFieldByName (c6KeySchema mid kid kxid vid sid2) ("m.key.x") true =
      findFieldById (c6KeySchema mid kid kxid vid sid2) kxid) := by
  have hb : buildNameToId true (c6Schema lid eid xid mid kid kxid vid vxid sid) =
      (⟨[("l", lid), ("l.element", eid), ("l.element.x", xid),
         ("m", mid), ("m.key", kid), ("m.key.x", kxid),
         ("m.value", vid), ("m.value.x", vxid)],
        [("l", lid), ("l.x", xid), ("m", mid), ("m.key", kid),
         ("m.key.x", kxid), ("m.x", vxid)]⟩, none) := rfl
  have hb2 : buildNameToId true (c6KeySchema mid kid kxid vid sid2) =
      (⟨[("m", mid), ("m.key", kid), ("m.key.x", kxid), ("m.value", vid)],
        [("m", mid), ("m.key", kid), ("m.key.x", kxid), ("m.value", vid)]⟩,
        none) := rfl
  refine ⟨?_, ?_, ?_, ?_, ?_, ?_, ?_⟩
  · simp only [findFieldByName, hb]
    rfl
  · rw [hb]
    rfl
  · simp only [findFieldByName, hb]
    rfl
  · rw [hb]
    rfl
  · rw [hb]
    rfl
  · simp only [findFieldByName, hb2]
    rfl
  · simp only [findFieldByName, hb2]
    rfl

/-! ## Claim C7 (amended): empty-struct projection vs full-subtree selection -/

theorem sfield_eta (f : SField) :
    f = SField.mk f.fid f.fname f.ftype f.fopt f.fdoc := by
  cases f
  rfl

theorem toList_ofList : ∀ l : List SField, (FieldList.ofList l).toList = l
  | [] => rfl
  | f :: l => by simp [FieldList.ofList, FieldList.toList, toList_ofList l]

theorem preIdsField_eq (g : SField) :
    preIdsField g = g.fid :: preIdsType g.ftype := by
  cases g
  rfl

theorem fid_mem_preIdsField (g : SField) : g.fid ∈ preIdsField g := by
  rw [preIdsField_eq]
  exact List.mem_cons_self _ _

theorem mem_preIdsField_of_mem_ftype (g : SField) {j : Int}
    (hj : j ∈ preIdsType g.ftype) : j ∈ preIdsField g := by
  rw [preIdsField_eq]
  exact List.mem_cons_of_mem _ hj

theorem chunk_nodup : ∀ (fs : FieldList) (g : SField), g ∈ fs.toList →
    (preIdsFields fs).Nodup → (preIdsField g).Nodup
  | .nil, g, hmem, _ => absurd hmem (by simp [FieldList.toList])
  | .cons h hs, g, hmem, hnd => by
    rw [FieldList.toList] at hmem
    rw [preIdsFields] at hnd
    rcases List.nodup_append.mp hnd with ⟨nd1, nd2, _⟩
    rcases List.mem_cons.mp hmem with heq | hmem2
    · subst heq
      exact nd1
    · exact chunk_nodup hs g hmem2 nd2

theorem mem_preIdsFields_of_mem_field : ∀ (fs : FieldList) (g : SField),
    g ∈ fs.toList → ∀ j ∈ preIdsField g, j ∈ preIdsFields fs
  | .nil, g, hmem, _, _ => absurd hmem (by simp [FieldList.toList])
  | .cons h hs, g, hmem, j, hj => by
    rw [FieldList.toList] at hmem
    rw [preIdsFields]
    rcases List.mem_cons.mp hmem with heq | hmem2
    · subst heq
      exact List.mem_append_left _ hj
    · exact List.mem_append_right _
        (mem_preIdsFields_of_mem_field hs g hmem2 j hj)

theorem occurs_fid_mem {f : SField} : ∀ {t : IType}, Occurs f t →
    f.fid ∈ preIdsType t := by
  intro t h
  induction h with
  | here fs hm =>
    exact mem_preIdsFields_of_mem_field fs f hm f.fid (fid_mem_preIdsField f)
  | deeper fs g hg ho ih =>
    exact mem_preIdsFields_of_mem_field fs g hg f.fid
      (mem_preIdsField_of_mem_ftype g ih)
  | inList e ho ih =>
    exact mem_preIdsField_of_mem_ftype e ih
  | inMapValue k v ho ih =>
    exact List.mem_append_right _ (mem_preIdsField_of_mem_ftype v ih)

theorem all_sameTypeOf_childrenNone : ∀ fs : FieldList,
    (childrenNone fs).all sameTypeOf = true
  | .nil => rfl
  | .cons f fs => by
    simp [childrenNone, sameTypeOf, all_sameTypeOf_childrenNone fs]

theorem occurs_structT {target : SField} {l : FieldList}
    (h : OccursFL target l.toList) : Occurs target (.structT l) := by
  rcases h with h | ⟨g, hg, ho⟩
  · exact Occurs.here l h
  · exact Occurs.deeper l g hg ho

/- Assembling a struct from per-field results whose selected-field list is
nonempty and carries the target yields a struct in which the target
occurs. -/
theorem assembleOccurs (fs : FieldList) (ps : List (SField × Option IType))
    (target : SField)
    (hoSF : OccursFL target (ps.foldr selectedFieldOf []))
    (hne : ps.foldr selectedFieldOf [] ≠ [])
    (hsame : ps.all sameTypeOf = true → OccursFL target fs.toList) :
    ∃ gs2, assembleStruct fs ps = some (.structT gs2) ∧
      Occurs target (.structT gs2) := by
  have hE : (ps.foldr selectedFieldOf []).isEmpty = false := by
    cases hx : (ps.foldr selectedFieldOf []).isEmpty with
    | false => rfl
    | true => exact absurd (by simpa using hx) hne
  cases hS : (ps.all sameTypeOf &&
      ((ps.foldr selectedFieldOf []).length == fs.length)) with
  | true =>
    have hS' := hS
    simp only [Bool.and_eq_true] at hS'
    refine ⟨fs, ?_, occurs_structT (hsame hS'.1)⟩
    simp only [assembleStruct]
    rw [hE, hS]
    rfl
  | false =>
    refine ⟨FieldList.ofList (ps.foldr selectedFieldOf []), ?_, ?_⟩
    · simp only [assembleStruct]
      rw [hE, hS]
      rfl
    · refine occurs_structT ?_
      rw [toList_ofList]
      exact hoSF

/- Walking a struct's members when every selected id lies in one member
`g0`'s id chunk: all other members contribute `none`, and `g0`'s
contribution carries the target field into the selected-field list. -/
theorem pruneStructChildrenOne (sel : List Int) (sft : Bool)
    (target g0 : SField) (ch0 : Option IType) (t0 : IType)
    (hchild : pruneType sel sft g0.ftype = .ok ch0)
    (hstep : pruneFieldStep sel sft g0.fid g0.fname g0.ftype ch0 = .ok (some t0))
    (hcase : target = SField.mk g0.fid g0.fname t0 g0.fopt g0.fdoc ∨
      Occurs target t0)
    (hselsub : ∀ j ∈ sel, j ∈ preIdsField g0) :
    ∀ fs : FieldList, g0 ∈ fs.toList → (preIdsFields fs).Nodup →
    ∃ ps, pruneStructChildren sel sft fs = .ok ps ∧
      OccursFL target (ps.foldr selectedFieldOf []) ∧
      ps.foldr selectedFieldOf [] ≠ [] ∧
      (ps.all sameTypeOf = true → OccursFL target fs.toList)
  | .nil, hmem, _ => absurd hmem (by simp [FieldList.toList])
  | .cons h hs, hmem, hnd => by
    obtain ⟨hi, hn2, ht, ho2, hd2⟩ := h
    rw [FieldList.toList] at hmem
    rw [preIdsFields] at hnd
    rcases List.nodup_append.mp hnd with ⟨nd1, nd2, disj⟩
    rcases List.mem_cons.mp hmem with heq | hmem2
    · subst heq
      simp only [SField.fid, SField.fname, SField.ftype, SField.fopt,
        SField.fdoc] at hchild hstep hcase
      have hdisj : ∀ j ∈ preIdsFields hs, j ∉ sel := by
        intro j hj hjin
        exact disj (hselsub j hjin) hj
      have hrest := pruneStructChildren_disjoint sel sft hs hdisj
      have hSF : ((SField.mk hi hn2 ht ho2 hd2, some t0) ::
          childrenNone hs).foldr selectedFieldOf [] =
          [if typeEq ht t0 = true then SField.mk hi hn2 ht ho2 hd2
           else SField.mk hi hn2 t0 ho2 hd2] := by
        simp [selectedFieldOf, foldr_selectedFieldOf_childrenNone,
          SField.ftype, SField.fid, SField.fname, SField.fopt, SField.fdoc]
      refine ⟨(SField.mk hi hn2 ht ho2 hd2, some t0) :: childrenNone hs,
        ?_, ?_, ?_, ?_⟩
      · rw [pruneStructChildren]
        simp [hchild, hstep, hrest]
      · rw [hSF]
        cases htq : typeEq ht t0 with
        | true =>
          rcases hcase with hc | hc
          · exact Or.inl (by
              rw [if_pos rfl, hc, typeEq_eq htq]
              exact List.mem_cons_self _ _)
          · refine Or.inr ⟨SField.mk hi hn2 ht ho2 hd2, ?_, ?_⟩
            · rw [if_pos rfl]
              exact List.mem_cons_self _ _
            · show Occurs target ht
              rw [typeEq_eq htq]
              exact hc
        | false =>
          rcases hcase with hc | hc
          · exact Or.inl (by
              rw [if_neg (by simp), hc]
              exact List.mem_cons_self _ _)
          · refine Or.inr ⟨SField.mk hi hn2 t0 ho2 hd2, ?_, hc⟩
            rw [if_neg (by simp)]
            exact List.mem_cons_self _ _
      · rw [hSF]
        simp
      · intro hall
        have h1 : typeEq ht t0 = true := by
          simp [sameTypeOf, all_sameTypeOf_childrenNone, SField.ftype] at hall
          exact hall
        have hteq := typeEq_eq h1
        rw [FieldList.toList]
        rcases hcase with hc | hc
        · exact Or.inl (by
            rw [hc, ← hteq]
            exact List.mem_cons_self _ _)
        · refine Or.inr ⟨SField.mk hi hn2 ht ho2 hd2, List.mem_cons_self _ _, ?_⟩
          show Occurs target ht
          rw [hteq]
          exact hc
    · have hsub2 : ∀ j ∈ sel, j ∈ preIdsFields hs := fun j hj =>
        mem_preIdsFields_of_mem_field hs g0 hmem2 j (hselsub j hj)
      have hhdisj : ∀ j ∈ preIdsType ht, j ∉ sel := by
        intro j hj hjs
        exact disj (mem_preIdsField_of_mem_ftype (SField.mk hi hn2 ht ho2 hd2) hj)
          (hsub2 j hjs)
      have hhid : hi ∉ sel := fun hjs =>
        disj (fid_mem_preIdsField (SField.mk hi hn2 ht ho2 hd2)) (hsub2 hi hjs)
      have hhchild : pruneType sel sft ht = .ok none :=
        pruneType_disjoint sel sft ht hhdisj
      obtain ⟨ps', hps', hoSF', hne', hsame'⟩ :=
        pruneStructChildrenOne sel sft target g0 ch0 t0 hchild hstep hcase
          hselsub hs hmem2 nd2
      refine ⟨(SField.mk hi hn2 ht ho2 hd2, none) :: ps', ?_, ?_, ?_, ?_⟩
      · rw [pruneStructChildren]
        simp [hhchild, pruneFieldStep, hhid, hps']
      · simpa [selectedFieldOf] using hoSF'
      · simpa [selectedFieldOf] using hne'
      · intro hall
        have hall' : ps'.all sameTypeOf = true := by
          simpa [sameTypeOf] using hall
        rw [FieldList.toList]
        rcases hsame' hall' with hc | ⟨g, hg, hoc⟩
        · exact Or.inl (List.mem_cons_of_mem _ hc)
        · exact Or.inr ⟨g, List.mem_cons_of_mem _ hg, hoc⟩

/- Project mode: selecting exactly the id of a struct-typed field that
occurs in `t` (all ids distinct) succeeds, and the emptied field occurs in
the resulting type. -/
theorem pruneType_occurs_project (f : SField) (gs0 : FieldList)
    (hstruct : f.ftype = .structT gs0) :
    ∀ {t : IType}, Occurs f t → (preIdsType t).Nodup →
    ∃ t2, pruneType [f.fid] false t = .ok (some t2) ∧ Occurs f.emptied t2 := by
  intro t h
  induction h with
  | here fs hm =>
    intro hnd
    have hnd' : (preIdsFields fs).Nodup := hnd
    have hcn := chunk_nodup fs f hm hnd'
    rw [preIdsField_eq] at hcn
    have hfn : f.fid ∉ preIdsType f.ftype := (List.nodup_cons.mp hcn).1
    have hchild : pruneType [f.fid] false f.ftype = .ok none := by
      refine pruneType_disjoint _ _ _ ?_
      intro j hj hjs
      rw [List.mem_singleton] at hjs
      subst hjs
      exact hfn hj
    have hstep : pruneFieldStep [f.fid] false f.fid f.fname f.ftype none =
        .ok (some (.structT .nil)) := by
      simp [pruneFieldStep, hstruct, isStructT]
    have hcase : f.emptied =
        SField.mk f.fid f.fname (.structT .nil) f.fopt f.fdoc ∨
        Occurs f.emptied (.structT .nil) := Or.inl rfl
    have hselsub : ∀ j ∈ ([f.fid] : List Int), j ∈ preIdsField f := by
      intro j hjs
      rw [List.mem_singleton] at hjs
      subst hjs
      exact fid_mem_preIdsField f
    obtain ⟨ps, hps, hoSF, hne, hsameI⟩ :=
      pruneStructChildrenOne [f.fid] false f.emptied f none (.structT .nil)
        hchild hstep hcase hselsub fs hm hnd'
    obtain ⟨gs2, hA, hOcc⟩ := assembleOccurs fs ps f.emptied hoSF hne hsameI
    refine ⟨.structT gs2, ?_, hOcc⟩
    rw [pruneType]
    simp [hps, hA]
  | deeper fs g hg ho ih =>
    intro hnd
    have hnd' : (preIdsFields fs).Nodup := hnd
    have hcn := chunk_nodup fs g hg hnd'
    rw [preIdsField_eq] at hcn
    rcases List.nodup_cons.mp hcn with ⟨hgfn, hndsub⟩
    obtain ⟨t2, hch, hocc2⟩ := ih hndsub
    have hne2 : ¬ g.fid = f.fid := by
      intro he
      apply hgfn
      rw [he]
      exact occurs_fid_mem ho
    have hstep : pruneFieldStep [f.fid] false g.fid g.fname g.ftype (some t2) =
        .ok (some t2) := by
      simp [pruneFieldStep, hne2]
    have hselsub : ∀ j ∈ ([f.fid] : List Int), j ∈ preIdsField g := by
      intro j hjs
      rw [List.mem_singleton] at hjs
      subst hjs
      exact mem_preIdsField_of_mem_ftype g (occurs_fid_mem ho)
    obtain ⟨ps, hps, hoSF, hne, hsameI⟩ :=
      pruneStructChildrenOne [f.fid] false f.emptied g (some t2) t2
        hch hstep (Or.inr hocc2) hselsub fs hg hnd'
    obtain ⟨gs2, hA, hOcc⟩ := assembleOccurs fs ps f.emptied hoSF hne hsameI
    refine ⟨.structT gs2, ?_, hOcc⟩
    rw [pruneType]
    simp [hps, hA]
  | inList e ho ih =>
    intro hnd
    obtain ⟨ei, en, et, eo, ed⟩ := e
    have hnd' : (ei :: preIdsType et).Nodup := hnd
    rcases List.nodup_cons.mp hnd' with ⟨hein, hndsub⟩
    obtain ⟨t2, hch, hocc2⟩ := ih hndsub
    simp only [SField.ftype] at hch
    have hne2 : ¬ ei = f.fid := by
      intro he
      apply hein
      rw [he]
      exact occurs_fid_mem ho
    cases htq : typeEq et t2 with
    | true =>
      refine ⟨.listT (.mk ei en et eo ed), ?_, ?_⟩
      · rw [pruneType]
        simp [hch, hne2, projectListStep, SField.ftype, htq]
      · refine Occurs.inList _ ?_
        show Occurs f.emptied et
        rw [typeEq_eq htq]
        exact hocc2
    | false =>
      refine ⟨.listT (.mk (SField.mk ei en et eo ed).fid ("element") t2
        (SField.mk ei en et eo ed).fopt ""), ?_, ?_⟩
      · rw [pruneType]
        simp [hch, hne2, projectListStep, SField.ftype, htq]
      · exact Occurs.inList _ hocc2
  | inMapValue k v ho ih =>
    intro hnd
    obtain ⟨kf, kn, kt, ko, kd⟩ := k
    obtain ⟨vf, vn, vt, vo, vd⟩ := v
    have hnd' : ((kf :: preIdsType kt) ++ (vf :: preIdsType vt)).Nodup := hnd
    rcases List.nodup_append.mp hnd' with ⟨ndk, ndv, disj⟩
    rcases List.nodup_cons.mp ndv with ⟨hvfn, hndsub⟩
    obtain ⟨t2, hch, hocc2⟩ := ih hndsub
    simp only [SField.ftype] at hch
    have hfidv : f.fid ∈ vf :: preIdsType vt :=
      List.mem_cons_of_mem _ (occurs_fid_mem ho)
    have hne2 : ¬ vf = f.fid := by
      intro he
      apply hvfn
      rw [he]
      exact occurs_fid_mem ho
    have hkdisj : ∀ j ∈ preIdsType kt, j ∉ ([f.fid] : List Int) := by
      intro j hj hjs
      rw [List.mem_singleton] at hjs
      subst hjs
      exact disj (List.mem_cons_of_mem _ hj) hfidv
    have hkey : pruneType [f.fid] false kt = .ok none :=
      pruneType_disjoint _ _ _ hkdisj
    cases htq : typeEq vt t2 with
    | true =>
      refine ⟨.mapT (.mk kf kn kt ko kd) (.mk vf vn vt vo vd), ?_, ?_⟩
      · rw [pruneType]
        simp [hkey, hch, hne2, projectMapStep, SField.ftype, htq]
      · refine Occurs.inMapValue _ _ ?_
        show Occurs f.emptied vt
        rw [typeEq_eq htq]
        exact hocc2
    | false =>
      refine ⟨.mapT (.mk kf kn kt ko kd)
        (.mk (SField.mk vf vn vt vo vd).fid (SField.mk vf vn vt vo vd).fname t2
          (SField.mk vf vn vt vo vd).fopt ""), ?_, ?_⟩
      · rw [pruneType]
        simp [hkey, hch, hne2, projectMapStep, SField.ftype, htq]
      · exact Occurs.inMapValue _ _ hocc2

/- Select mode (`select_full_types = true`): selecting exactly the id of a
field that occurs in `t` (all ids distinct) succeeds, and the field itself
— full subtree and all — occurs in the resulting type. -/
theorem pruneType_occurs_select (f : SField) :
    ∀ {t : IType}, Occurs f t → (preIdsType t).Nodup →
    ∃ t2, pruneType [f.fid] true t = .ok (some t2) ∧ Occurs f t2 := by
  intro t h
  induction h with
  | here fs hm =>
    intro hnd
    have hnd' : (preIdsFields fs).Nodup := hnd
    have hcn := chunk_nodup fs f hm hnd'
    rw [preIdsField_eq] at hcn
    have hfn : f.fid ∉ preIdsType f.ftype := (List.nodup_cons.mp hcn).1
    have hchild : pruneType [f.fid] true f.ftype = .ok none := by
      refine pruneType_disjoint _ _ _ ?_
      intro j hj hjs
      rw [List.mem_singleton] at hjs
      subst hjs
      exact hfn hj
    have hstep : pruneFieldStep [f.fid] true f.fid f.fname f.ftype none =
        .ok (some f.ftype) := by
      simp [pruneFieldStep]
    have hcase : f = SField.mk f.fid f.fname f.ftype f.fopt f.fdoc ∨
        Occurs f f.ftype := Or.inl (sfield_eta f)
    have hselsub : ∀ j ∈ ([f.fid] : List Int), j ∈ preIdsField f := by
      intro j hjs
      rw [List.mem_singleton] at hjs
      subst hjs
      exact fid_mem_preIdsField f
    obtain ⟨ps, hps, hoSF, hne, hsameI⟩ :=
      pruneStructChildrenOne [f.fid] true f f none f.ftype
        hchild hstep hcase hselsub fs hm hnd'
    obtain ⟨gs2, hA, hOcc⟩ := assembleOccurs fs ps f hoSF hne hsameI
    refine ⟨.structT gs2, ?_, hOcc⟩
    rw [pruneType]
    simp [hps, hA]
  | deeper fs g hg ho ih =>
    intro hnd
    have hnd' : (preIdsFields fs).Nodup := hnd
    have hcn := chunk_nodup fs g hg hnd'
    rw [preIdsField_eq] at hcn
    rcases List.nodup_cons.mp hcn with ⟨hgfn, hndsub⟩
    obtain ⟨t2, hch, hocc2⟩ := ih hndsub
    have hne2 : ¬ g.fid = f.fid := by
      intro he
      apply hgfn
      rw [he]
      exact occurs_fid_mem ho
    have hstep : pruneFieldStep [f.fid] true g.fid g.fname g.ftype (some t2) =
        .ok (some t2) := by
      simp [pruneFieldStep, hne2]
    have hselsub : ∀ j ∈ ([f.fid] : List Int), j ∈ preIdsField g := by
      intro j hjs
      rw [List.mem_singleton] at hjs
      subst hjs
      exact mem_preIdsField_of_mem_ftype g (occurs_fid_mem ho)
    obtain ⟨ps, hps, hoSF, hne, hsameI⟩ :=
      pruneStructChildrenOne [f.fid] true f g (some t2) t2
        hch hstep (Or.inr hocc2) hselsub fs hg hnd'
    obtain ⟨gs2, hA, hOcc⟩ := assembleOccurs fs ps f hoSF hne hsameI
    refine ⟨.structT gs2, ?_, hOcc⟩
    rw [pruneType]
    simp [hps, hA]
  | inList e ho ih =>
    intro hnd
    obtain ⟨ei, en, et, eo, ed⟩ := e
    have hnd' : (ei :: preIdsType et).Nodup := hnd
    rcases List.nodup_cons.mp hnd' with ⟨hein, hndsub⟩
    obtain ⟨t2, hch, hocc2⟩ := ih hndsub
    simp only [SField.ftype] at hch
    have hne2 : ¬ ei = f.fid := by
      intro he
      apply hein
      rw [he]
      exact occurs_fid_mem ho
    cases htq : typeEq et t2 with
    | true =>
      refine ⟨.listT (.mk ei en et eo ed), ?_, ?_⟩
      · rw [pruneType]
        simp [hch, hne2, projectListStep, SField.ftype, htq]
      · refine Occurs.inList _ ?_
        show Occurs f et
        rw [typeEq_eq htq]
        exact hocc2
    | false =>
      refine ⟨.listT (.mk (SField.mk ei en et eo ed).fid ("element") t2
        (SField.mk ei en et eo ed).fopt ""), ?_, ?_⟩
      · rw [pruneType]
        simp [hch, hne2, projectListStep, SField.ftype, htq]
      · exact Occurs.inList _ hocc2
  | inMapValue k v ho ih =>
    intro hnd
    obtain ⟨kf, kn, kt, ko, kd⟩ := k
    obtain ⟨vf, vn, vt, vo, vd⟩ := v
    have hnd' : ((kf :: preIdsType kt) ++ (vf :: preIdsType vt)).Nodup := hnd
    rcases List.nodup_append.mp hnd' with ⟨ndk, ndv, disj⟩
    rcases List.nodup_cons.mp ndv with ⟨hvfn, hndsub⟩
    obtain ⟨t2, hch, hocc2⟩ := ih hndsub
    simp only [SField.ftype] at hch
    have hfidv : f.fid ∈ vf :: preIdsType vt :=
      List.mem_cons_of_mem _ (occurs_fid_mem ho)
    have hne2 : ¬ vf = f.fid := by
      intro he
      apply hvfn
      rw [he]
      exact occurs_fid_mem ho
    have hkdisj : ∀ j ∈ preIdsType kt, j ∉ ([f.fid] : List Int) := by
      intro j hj hjs
      rw [List.mem_singleton] at hjs
      subst hjs
      exact disj (List.mem_cons_of_mem _ hj) hfidv
    have hkey : pruneType [f.fid] true kt = .ok none :=
      pruneType_disjoint _ _ _ hkdisj
    cases htq : typeEq vt t2 with
    | true =>
      refine ⟨.mapT (.mk kf kn kt ko kd) (.mk vf vn vt vo vd), ?_, ?_⟩
      · rw [pruneType]
        simp [hkey, hch, hne2, projectMapStep, SField.ftype, htq]
      · refine Occurs.inMapValue _ _ ?_
        show Occurs f vt
        rw [typeEq_eq htq]
        exact hocc2
    | false =>
      refine ⟨.mapT (.mk kf kn kt ko kd)
        (.mk (SField.mk vf vn vt vo vd).fid (SField.mk vf vn vt vo vd).fname t2
          (SField.mk vf vn vt vo vd).fopt ""), ?_, ?_⟩
      · rw [pruneType]
        simp [hkey, hch, hne2, projectMapStep, SField.ftype, htq]
      · exact Occurs.inMapValue _ _ hocc2

/- A non-null struct-visit result is always itself a struct type. -/
theorem pruneType_structT_shape (sel : List Int) (sft : Bool) (fs : FieldList)
    (t2 : IType) (h : pruneType sel sft (.structT fs) = .ok (some t2)) :
    ∃ gs2, t2 = .structT gs2 := by
  rw [pruneType] at h
  cases hps : pruneStructChildren sel sft fs with
  | error e =>
    rw [hps] at h
    exact Except.noConfusion h
  | ok ps =>
    rw [hps] at h
    injection h with h2
    rcases assembleStruct_shape fs ps with hA | ⟨gs2, hA⟩
    · rw [hA] at h2
      exact Option.noConfusion h2
    · rw [hA] at h2
      injection h2 with h3
      exact ⟨gs2, h3.symm⟩

/-- Claim C7 (amended): for a schema with pairwise-distinct field ids and a
struct-typed field `f` that is a member of some struct node of the schema
(`Occurs`: reachable through struct members, list element types and map
value types, never through a map key), `Project({f.fid})` succeeds and its
result contains `f` reduced to an empty struct (same id, name,
optionality, doc; no children), while `Select` on any name that resolves
to `f` (with `select_full_types = true`) succeeds and its result contains
the field `f` verbatim, entire original subtree included.  The original
claim's quantification over every struct-typed field is too wide: a list's
element field is struct-typed without being a struct member, and
projecting exactly its id can fail with `InvalidArgument` from
`ProjectList`, as on the test suite's list-of-struct schema: see the
counterexample. -/
theorem c7_project_empties_select_keeps_struct_field (s : Schema)
    (f : SField) (gs0 : FieldList)
    (hnd : (preIds s).Nodup)
    (hstruct : f.ftype = .structT gs0)
    (hocc : Occurs f (.structT s.fields)) :
    (∃ fs2, project s [f.fid] = .ok ⟨fs2, s.schemaId⟩ ∧
      Occurs f.emptied (.structT fs2)) ∧
    (∀ nm, ([nm] : List String).contains ("*") = false →
      findFieldByName s nm true = .ok (some f) →
      ∃ fs3, internalSelect s [nm] true = .ok ⟨fs3, s.schemaId⟩ ∧
        Occurs f (.structT fs3)) := by
  have hndT : (preIdsType (.structT s.fields)).Nodup := hnd
  constructor
  · obtain ⟨t2, hpt, hOcc⟩ := pruneType_occurs_project f gs0 hstruct hocc hndT
    obtain ⟨fs2, hsh⟩ := pruneType_structT_shape [f.fid] false s.fields t2 hpt
    subst hsh
    refine ⟨fs2, ?_, hOcc⟩
    have hpst : pruneStructT [f.fid] false s.fields =
        .ok (some (.structT fs2)) := hpt
    simp [project, hpst]
  · intro nm hstar hres
    obtain ⟨t2, hpt, hOcc⟩ := pruneType_occurs_select f hocc hndT
    obtain ⟨fs3, hsh⟩ := pruneType_structT_shape [f.fid] true s.fields t2 hpt
    subst hsh
    refine ⟨fs3, ?_, hOcc⟩
    have hpst : pruneStructT [f.fid] true s.fields =
        .ok (some (.structT fs3)) := hpt
    have hne : ¬ (("*") = nm) := by simpa using hstar
    simp [internalSelect, hne, resolveSelectedIds, hres, hpst]

/-- Witness for C7 at the nested user schema: the struct-typed field `13:
address` is a member of `15: user`; `Project({13})` succeeds and its
result contains the emptied address field, while
`Select({"user.address"})` succeeds and its result contains the address
field verbatim. -/
theorem c7_project_empties_select_keeps_struct_field_witness :
    (preIds nestedUserSchema).Nodup ∧
    addrField.ftype = .structT
      (.cons (.mk 11 ("street") (.primitive ("string")) true "")
        (.cons (.mk 12 ("city") (.primitive ("string")) true "") .nil)) ∧
    findFieldByName nestedUserSchema ("user.address") true =
      .ok (some addrField) ∧
    (∃ fs2, project nestedUserSchema [addrField.fid] =
        .ok ⟨fs2, nestedUserSchema.schemaId⟩ ∧
      Occurs addrField.emptied (.structT fs2)) ∧
    (∃ fs3, internalSelect nestedUserSchema [("user.address")] true =
        .ok ⟨fs3, nestedUserSchema.schemaId⟩ ∧
      Occurs addrField (.structT fs3)) := by
  have h := c7_project_empties_select_keeps_struct_field nestedUserSchema
    addrField
    (.cons (.mk 11 ("street") (.primitive ("string")) true "")
      (.cons (.mk 12 ("city") (.primitive ("string")) true "") .nil))
    (by decide) rfl
    (Occurs.deeper _ userField (by decide) (Occurs.here _ (by decide)))
  exact ⟨by decide, rfl, rfl, h.1, h.2 ("user.address") (by decide) rfl⟩

end Iceberg
